import Mathlib

/-!
Shallow embedding of the factory-lib logistics layer (Rust) in Lean 4:
stacks, connection buffers, belts with grouped multiplicity-compressed
entries, and the buffered / direct splitters. Machine integers of the
source (u16, u32) are modelled as Nat; subtraction mirrors the source's
checked/saturating subtractions (the source panics on debug underflow,
which only unreachable states would trigger at the places embedded here).
Loops are embedded as fuelled recursions whose fuel provably dominates the
loop's decreasing measure.
-/

namespace FactoryLib

abbrev ItemType := Nat

/-- ITEM_WIDTH from types.rs: the width of a single item in world units. -/
def ITEM_WIDTH : Nat := 128

/-- The value u32::MAX returned by max_acceptable_stacks for zero-sized stacks. -/
def UINT32_MAX : Nat := 4294967295

/-- Stack from stack.rs: item type, per-stack count, and the number of
identical fused stack records. -/
structure Stack where
  item_type : ItemType
  item_count : Nat
  multiplicity : Nat
deriving Repr, DecidableEq, Inhabited

/-- Stack equality as the source's PartialEq: multiplicity is ignored. -/
def stackEq (a b : Stack) : Bool :=
  a.item_type == b.item_type && a.item_count == b.item_count

/-- Stack::new — multiplicity 1. -/
def Stack.new (t : ItemType) (c : Nat) : Stack := ⟨t, c, 1⟩

/-- Stack::is_empty. -/
def Stack.isEmptyStack (s : Stack) : Bool := s.item_count == 0

/-- ConnectionState from belt_connection.rs. -/
structure ConnectionState where
  item_limit : Nat
  item_filter : Option (List ItemType)
  buffer : Option Stack
deriving Repr, DecidableEq, Inhabited

namespace ConnectionState

/-- ConnectionState::new. -/
def new (item_limit : Nat) (item_filter : Option (List ItemType)) : ConnectionState :=
  ⟨item_limit, item_filter, none⟩

/-- ConnectionState::buffered_item_count. -/
def buffered_item_count (st : ConnectionState) : Nat :=
  match st.buffer with
  | some stack => stack.item_count
  | none => 0

/-- ConnectionState::is_empty. -/
def isEmptyConn (st : ConnectionState) : Bool := st.buffer.isNone

/-- ConnectionState::current_item_type. -/
def current_item_type (st : ConnectionState) : Option ItemType :=
  st.buffer.map (fun stack => stack.item_type)

/-- ConnectionState::can_take_item_type. -/
def can_take_item_type (st : ConnectionState) (t : ItemType) : Bool :=
  match st.item_filter with
  | some filter => filter.contains t
  | none =>
    match st.buffer with
    | some buffer => buffer.item_type == t && decide (buffer.item_count < st.item_limit)
    | none => true

/-- ConnectionState::can_take_item_count. -/
def can_take_item_count (st : ConnectionState) (item_count : Nat) : Bool :=
  match st.buffer with
  | some buffer => decide (buffer.item_count + item_count ≤ st.item_limit)
  | none => decide (item_count ≤ st.item_limit)

/-- Whether the optional filter lets `t` through (the source's repeated
`if let Some(filter) = &self.item_filter && !filter.contains(..)` guard). -/
def filterAllows (st : ConnectionState) (t : ItemType) : Bool :=
  match st.item_filter with
  | some filter => filter.contains t
  | none => true

/-- ConnectionState::can_accept_stack. -/
def can_accept_stack (st : ConnectionState) (stack : Stack) : Bool :=
  if !(st.filterAllows stack.item_type) then false
  else
    let stack_items := stack.item_count * stack.multiplicity
    if stack_items == 0 then true
    else
      match st.buffer with
      | none => decide (stack_items ≤ st.item_limit)
      | some existing =>
        if existing.item_type != stack.item_type then false
        else decide (existing.item_count + stack_items ≤ st.item_limit)

/-- ConnectionState::accept_stack — returns the success flag and the new state. -/
def accept_stack (st : ConnectionState) (stack : Stack) : Bool × ConnectionState :=
  if !(st.can_accept_stack stack) then (false, st)
  else
    match st.buffer with
    | some existing =>
      (true, { st with buffer := some { existing with item_count := existing.item_count + stack.item_count } })
    | none => (true, { st with buffer := some stack })

/-- ConnectionState::inc_item_count — returns the leftover and the new state. -/
def inc_item_count (st : ConnectionState) (item_type : ItemType) (item_count : Nat) :
    Nat × ConnectionState :=
  match st.buffer with
  | some buffer =>
    if buffer.item_type != item_type then (item_count, st)
    else
      let allowed := st.item_limit - buffer.item_count
      let amount_to_add := min item_count allowed
      (item_count - amount_to_add,
        { st with buffer := some { buffer with item_count := buffer.item_count + amount_to_add } })
  | none =>
    let allowed := st.item_limit - 0
    let amount_to_add := min item_count allowed
    (item_count - amount_to_add,
      { st with buffer := some ⟨item_type, 0 + amount_to_add, 1⟩ })

/-- ConnectionState::dec_item_count — returns the leftover and the new state. -/
def dec_item_count (st : ConnectionState) (item_count : Nat) : Nat × ConnectionState :=
  match st.buffer with
  | none => (item_count, st)
  | some buffer =>
    let amount_to_remove := min item_count buffer.item_count
    let new_count := buffer.item_count - amount_to_remove
    let st' :=
      if new_count == 0 then { st with buffer := none }
      else { st with buffer := some { buffer with item_count := new_count } }
    (item_count - amount_to_remove, st')

/-- ConnectionState::max_acceptable_item_count. -/
def max_acceptable_item_count (st : ConnectionState) : Nat :=
  match st.buffer with
  | some buffer => st.item_limit - buffer.item_count
  | none => st.item_limit

/-- ConnectionState::max_acceptable_stacks. -/
def max_acceptable_stacks (st : ConnectionState) (stack : Stack) : Nat :=
  if stack.multiplicity != 1 then 0
  else if !(st.filterAllows stack.item_type) then 0
  else
    let per_stack_items := stack.item_count
    if per_stack_items == 0 then UINT32_MAX
    else
      match st.buffer with
      | none =>
        if per_stack_items > st.item_limit then 0
        else st.item_limit / per_stack_items
      | some existing =>
        if existing.item_type != stack.item_type then 0
        else if existing.item_count ≥ st.item_limit then 0
        else (st.item_limit - existing.item_count) / per_stack_items

end ConnectionState

/-- OutputBatch from belt_connection.rs. -/
structure OutputBatch where
  full_stack : Option Stack
  partial_stack : Option Stack
deriving Repr, DecidableEq, Inhabited

/-- OutputBatch::num_stacks. -/
def OutputBatch.num_stacks (b : OutputBatch) : Nat :=
  (match b.full_stack with
   | some full => full.multiplicity
   | none => 0) +
  (if b.partial_stack.isSome then 1 else 0)

/-- BeltInputConnection from belt_connection.rs (wraps a ConnectionState). -/
structure BeltInputConnection where
  state : ConnectionState
deriving Repr, DecidableEq, Inhabited

/-- BeltOutputConnection from belt_connection.rs: a ConnectionState plus the
output stack granularity. -/
structure BeltOutputConnection where
  state : ConnectionState
  output_stack_size : Nat
deriving Repr, DecidableEq, Inhabited

namespace BeltOutputConnection

/-- BeltOutputConnection::take_output_batch — emits up to `max_stacks` belt
slots' worth of stacks: full stacks of size output_stack_size first, then at
most one partial stack. Returns the batch (if any) and the drained state. -/
def take_output_batch (c : BeltOutputConnection) (max_stacks : Nat) :
    Option OutputBatch × BeltOutputConnection :=
  if max_stacks == 0 then (none, c)
  else
    match c.state.buffer with
    | none => (none, c)
    | some buffer =>
      if buffer.item_count == 0 then (none, c)
      else
        let output_size := c.output_stack_size
        let items_available := buffer.item_count
        let slots_remaining := max_stacks
        let full_stack_count :=
          if output_size > 0 then min (items_available / output_size) slots_remaining else 0
        let items_available :=
          if output_size > 0 then items_available - full_stack_count * output_size
          else items_available
        let slots_remaining :=
          if output_size > 0 then slots_remaining - full_stack_count else slots_remaining
        let partial_stack_items :=
          if slots_remaining > 0 && items_available > 0 then items_available else 0
        if full_stack_count == 0 && partial_stack_items == 0 then (none, c)
        else
          let consumed_items := full_stack_count * output_size + partial_stack_items
          let full_stack :=
            if full_stack_count > 0 then
              some (⟨buffer.item_type, c.output_stack_size, full_stack_count⟩ : Stack)
            else none
          let partial_stack :=
            if partial_stack_items > 0 then
              some (⟨buffer.item_type, partial_stack_items, 1⟩ : Stack)
            else none
          let remaining := buffer.item_count - consumed_items
          let c' :=
            if remaining == 0 then { c with state := { c.state with buffer := none } }
            else { c with state := { c.state with buffer := some { buffer with item_count := remaining } } }
          (some ⟨full_stack, partial_stack⟩, c')

/-- BeltOutputConnection::peek_next_output. -/
def peek_next_output (c : BeltOutputConnection) : Option Stack :=
  match c.state.buffer with
  | none => none
  | some buffer =>
    let count := min buffer.item_count c.output_stack_size
    if count == 0 then none
    else some ⟨buffer.item_type, count, 1⟩

/-- BeltOutputConnection::take_next_output — emits one stack of size
min(buffered, output_stack_size) with multiplicity 1. -/
def take_next_output (c : BeltOutputConnection) : Option Stack × BeltOutputConnection :=
  match c.state.buffer with
  | none => (none, c)
  | some buffer =>
    if buffer.item_count == 0 then (none, c)
    else
      let count := min buffer.item_count c.output_stack_size
      let emitted : Stack := ⟨buffer.item_type, count, 1⟩
      let new_count := buffer.item_count - count
      let c' :=
        if new_count > 0 then
          { c with state := { c.state with buffer := some { buffer with item_count := new_count, multiplicity := 1 } } }
        else { c with state := { c.state with buffer := none } }
      (some emitted, c')

end BeltOutputConnection

/-- The connection kind of belt.rs's unified BeltConnection (Input feeds a
belt tail, Output absorbs at a belt head). -/
inductive BeltConnectionKind where
  | Input
  | Output
deriving Repr, DecidableEq, Inhabited

/-- The unified BeltConnection used by belt.rs in this revision: the wrapper
type itself is not under src/ (belt_connection.rs here splits it into
BeltInputConnection and BeltOutputConnection), but every operation belt.rs
invokes on it is defined in src by ConnectionState and BeltOutputConnection,
to which this wrapper delegates. -/
structure BeltConnection where
  kind : BeltConnectionKind
  state : ConnectionState
  output_stack_size : Nat
deriving Repr, DecidableEq, Inhabited

namespace BeltConnection

/-- max_acceptable_stacks, delegated to ConnectionState. -/
def max_acceptable_stacks (c : BeltConnection) (stack : Stack) : Nat :=
  c.state.max_acceptable_stacks stack

/-- accept_stack, delegated to ConnectionState. -/
def accept_stack (c : BeltConnection) (stack : Stack) : Bool × BeltConnection :=
  let (ok, st') := c.state.accept_stack stack
  (ok, { c with state := st' })

/-- take_output_batch, delegated to BeltOutputConnection's implementation. -/
def take_output_batch (c : BeltConnection) (max_stacks : Nat) :
    Option OutputBatch × BeltConnection :=
  let (batch, c') := BeltOutputConnection.take_output_batch ⟨c.state, c.output_stack_size⟩ max_stacks
  (batch, { c with state := c'.state })

/-- buffered_item_count, delegated to ConnectionState. -/
def buffered_item_count (c : BeltConnection) : Nat :=
  c.state.buffered_item_count

end BeltConnection

/-- BeltItem from belt.rs: a stack on the belt with its distance to the next
entry and its contiguous-group metadata. -/
structure BeltItem where
  stack : Stack
  next_item_dist : Option Nat
  is_group_head : Bool
  is_group_tail : Bool
  group_size : Nat
deriving Repr, DecidableEq, Inhabited

/-- Belt from belt.rs; the VecDeque is a List whose head is the belt front. -/
structure Belt where
  length : Nat
  speed : Nat
  items : List BeltItem
  empty_space_front : Nat
  empty_space_back : Nat
  input_connection : Option BeltConnection
  output_connection : Option BeltConnection
deriving Repr, DecidableEq, Inhabited

/-- Replace the last element of a list (the VecDeque back), leaving an empty
list unchanged. -/
def setLast (l : List BeltItem) (x : BeltItem) : List BeltItem :=
  match l with
  | [] => []
  | _ :: _ => l.dropLast ++ [x]

namespace Belt

/-- Belt::new — an empty belt whose whole length is empty space at both ends. -/
def new (length speed : Nat) : Belt :=
  ⟨length, speed, [], length, length, none, none⟩

/-- Belt::is_empty. -/
def isEmptyBelt (b : Belt) : Bool := b.items.isEmpty

/-- Belt::item_count — the sum of the entries' multiplicities. -/
def item_count (b : Belt) : Nat :=
  (b.items.map (fun item => item.stack.multiplicity)).sum

/-- Belt::add_item — push one multiplicity-1 stack at the belt tail, fusing
with an equal adjacent tail entry, or extending / starting a group. Returns
the success flag and the new belt. -/
def add_item (b : Belt) (stack : Stack) : Bool × Belt :=
  if stack.multiplicity != 1 then (false, b)
  else if b.empty_space_back < ITEM_WIDTH then (false, b)
  else
    match b.items.getLast? with
    | some item =>
      let spacing := b.empty_space_back - ITEM_WIDTH
      if spacing == 0 && stackEq item.stack stack then
        (true, { b with
          items := setLast b.items
            { item with stack := { item.stack with multiplicity := item.stack.multiplicity + stack.multiplicity } },
          empty_space_back := 0 })
      else
        if spacing == 0 then
          let group_size := item.group_size + 1
          let items₁ := setLast b.items { item with next_item_dist := some spacing, is_group_tail := false }
          let group_head_index := 1 + b.items.length - group_size
          let head := items₁.getD group_head_index default
          let items₂ := items₁.set group_head_index { head with group_size := group_size }
          (true, { b with
            items := items₂ ++ [⟨stack, none, false, true, group_size⟩],
            empty_space_back := 0 })
        else
          let items₁ := setLast b.items { item with next_item_dist := some spacing }
          (true, { b with
            items := items₁ ++ [⟨stack, none, true, true, 1⟩],
            empty_space_back := 0 })
    | none =>
      (true, { b with
        items := [⟨stack, none, true, true, 1⟩],
        empty_space_front := b.empty_space_front - ITEM_WIDTH,
        empty_space_back := 0 })

/-- Belt::pop_front_entry — pop the head entry, promote the next entry to
group head when the popped entry led a larger group, and recompute the front
gap from the popped entry's next_item_dist. -/
def pop_front_entry (b : Belt) (update_back_space : Bool) : Option BeltItem × Belt :=
  match b.items with
  | [] => (none, b)
  | item :: rest =>
    let rest' :=
      if item.group_size > 1 then
        match rest with
        | next :: tl => { next with is_group_head := true, group_size := item.group_size - 1 } :: tl
        | [] => []
      else rest
    let front :=
      match item.next_item_dist with
      | some offset => offset + ITEM_WIDTH
      | none => b.length
    let back :=
      if update_back_space && rest'.isEmpty then b.length else b.empty_space_back
    (some item, { b with items := rest', empty_space_front := front, empty_space_back := back })

/-- Belt::remove_item — pop one multiplicity-1 stack off the head without
advancing; fails when a front gap exists or the belt is empty. -/
def remove_item (b : Belt) : Option Stack × Belt :=
  if b.empty_space_front > 0 then (none, b)
  else
    match b.items with
    | [] => (none, b)
    | front_item :: rest =>
      let stack := { front_item.stack with multiplicity := 1 }
      let front_item' := { front_item with stack := { front_item.stack with multiplicity := front_item.stack.multiplicity - 1 } }
      let b' := { b with items := front_item' :: rest, empty_space_front := ITEM_WIDTH }
      if front_item'.stack.multiplicity == 0 then (some stack, (b'.pop_front_entry true).2)
      else (some stack, b')

/-- The loop of Belt::remove_while_run: consume front gaps with the distance
budget, then pull complete stacks, honouring the optional type filter and
item limit. The fuel dominates the strictly decreasing remaining distance. -/
def removeWhileRunLoop (fuel : Nat) (b : Belt) (distance_to_move : Nat)
    (items_filter : Option (List ItemType)) (total_items_limit : Option Nat)
    (total_removed : Nat) (removed_items : List Stack) : List Stack × Belt :=
  match fuel with
  | 0 => (removed_items, b)
  | fuel + 1 =>
    if distance_to_move == 0 then (removed_items, b)
    else if b.empty_space_front > 0 then
      if distance_to_move < b.empty_space_front then
        (removed_items, { b with
          empty_space_front := b.empty_space_front - distance_to_move,
          empty_space_back := b.empty_space_back + distance_to_move })
      else
        removeWhileRunLoop fuel
          { b with
            empty_space_front := 0,
            empty_space_back := b.empty_space_back + b.empty_space_front }
          (distance_to_move - b.empty_space_front) items_filter total_items_limit
          total_removed removed_items
    else
      match b.items with
      | [] => (removed_items, b)
      | front_snapshot :: _ =>
        if (match items_filter with
            | some filter => !(filter.contains front_snapshot.stack.item_type)
            | none => false) then
          (removed_items, b)
        else
          let multiplicity := front_snapshot.stack.multiplicity
          let max_by_distance := distance_to_move / ITEM_WIDTH
          if max_by_distance == 0 then
            (removed_items, { b with
              empty_space_front := distance_to_move,
              empty_space_back := b.empty_space_back + distance_to_move })
          else
            let removable := min max_by_distance multiplicity
            let stack := { front_snapshot.stack with multiplicity := removable }
            let removed_items := removed_items ++ [stack]
            let distance_to_move := distance_to_move - removable * ITEM_WIDTH
            let b := { b with empty_space_back := b.empty_space_back + removable * ITEM_WIDTH }
            let (b, distance_to_move) :=
              if removable < multiplicity then
                let b :=
                  match b.items with
                  | front_item :: rest =>
                    { b with items := { front_item with stack := { front_item.stack with multiplicity := front_item.stack.multiplicity - removable } } :: rest }
                  | [] => b
                if distance_to_move > 0 then
                  ({ b with
                      empty_space_front := distance_to_move,
                      empty_space_back := b.empty_space_back + distance_to_move }, 0)
                else ({ b with empty_space_front := 0 }, 0)
              else
                let (popped, b') := b.pop_front_entry true
                let b' :=
                  match popped with
                  | some removed_item =>
                    { b' with empty_space_front :=
                        match removed_item.next_item_dist with
                        | some offset => offset
                        | none => b'.length }
                  | none => b'
                (b', distance_to_move)
            let total_removed := total_removed + removable
            if (match total_items_limit with
                | some limit => decide (total_removed ≥ limit)
                | none => false) then
              (removed_items, b)
            else
              removeWhileRunLoop fuel b distance_to_move items_filter total_items_limit
                total_removed removed_items

/-- Belt::remove_while_run. -/
def remove_while_run (b : Belt) (ticks : Nat) (items_filter : Option (List ItemType))
    (total_items_limit : Option Nat) : List Stack × Belt :=
  let distance_to_move := ticks * b.speed
  removeWhileRunLoop (distance_to_move + 1) b distance_to_move items_filter total_items_limit 0 []

/-- The loop of Belt::drain_to_output: consume the front gap, then hand head
stacks to the output connection while the distance budget and the
connection's capacity allow. Returns the belt, the consumed distance, the
blocked flag, and the connection. The fuel dominates the strictly
decreasing measure distance + number of entries. -/
def drainLoop (fuel : Nat) (b : Belt) (distance_to_move : Nat) (connection : BeltConnection)
    (consumed : Nat) : Belt × Nat × Bool × BeltConnection :=
  match fuel with
  | 0 => (b, consumed, false, connection)
  | fuel + 1 =>
    if b.empty_space_front > 0 && distance_to_move > 0 then
      if distance_to_move < b.empty_space_front then
        ({ b with
            empty_space_front := b.empty_space_front - distance_to_move,
            empty_space_back := b.empty_space_back + distance_to_move },
          consumed + distance_to_move, false, connection)
      else
        drainLoop fuel
          { b with
            empty_space_front := 0,
            empty_space_back := b.empty_space_back + b.empty_space_front }
          (distance_to_move - b.empty_space_front) connection
          (consumed + b.empty_space_front)
    else
      match b.items with
      | [] => (b, consumed, false, connection)
      | front_snapshot :: rest =>
        let multiplicity := front_snapshot.stack.multiplicity
        let stack : Stack := ⟨front_snapshot.stack.item_type, front_snapshot.stack.item_count, 1⟩
        let allow_immediate := distance_to_move == 0 && b.empty_space_front == 0
        let max_by_distance :=
          if allow_immediate then multiplicity else distance_to_move / ITEM_WIDTH
        if max_by_distance == 0 && !allow_immediate then
          ({ b with
              empty_space_front := distance_to_move,
              empty_space_back := b.empty_space_back + distance_to_move },
            consumed + distance_to_move, false, connection)
        else
          let max_by_connection := connection.max_acceptable_stacks stack
          if max_by_connection == 0 then (b, consumed, true, connection)
          else
            let removable :=
              if allow_immediate then min multiplicity max_by_connection
              else min (min max_by_distance multiplicity) max_by_connection
            if removable == 0 then (b, consumed, true, connection)
            else
              let stack := { stack with multiplicity := removable }
              let accept_result := connection.accept_stack stack
              let accepted := accept_result.1
              let connection := accept_result.2
              if !accepted then (b, consumed, true, connection)
              else
                let moved := removable * ITEM_WIDTH
                let b := { b with empty_space_back := b.empty_space_back + moved }
                let consumed := consumed + moved
                let distance_to_move := distance_to_move - moved
                if removable < multiplicity then
                  let b := { b with
                    items := { front_snapshot with stack := { front_snapshot.stack with multiplicity := multiplicity - removable } } :: rest }
                  if distance_to_move > 0 then
                    ({ b with
                        empty_space_front := distance_to_move,
                        empty_space_back := b.empty_space_back + distance_to_move },
                      consumed + distance_to_move, false, connection)
                  else (b, consumed, false, connection)
                else
                  let b := (b.pop_front_entry false).2
                  let b := if b.items.isEmpty then { b with empty_space_back := b.length } else b
                  drainLoop fuel b distance_to_move connection consumed

/-- Belt::drain_to_output. -/
def drain_to_output (b : Belt) (distance_to_move : Nat) (connection : BeltConnection) :
    Belt × Nat × Bool × BeltConnection :=
  drainLoop (distance_to_move + b.items.length + 1) b distance_to_move connection 0

/-- The metadata rewrite loop of Belt::advance_without_connections: for each
index from `idx` up to `last_index`, install the merged group's size, its
head/tail flags, internal zero distances and the carried tail distance. -/
def rewriteFrom (idx last_index group_size : Nat) (tail_next_dist : Option Nat) :
    List BeltItem → List BeltItem
  | [] => []
  | item :: rest =>
    if idx ≤ last_index then
      { item with
        group_size := group_size,
        is_group_head := idx == 0,
        is_group_tail := idx == last_index,
        next_item_dist := if idx < last_index then some 0 else tail_next_dist } ::
      rewriteFrom (idx + 1) last_index group_size tail_next_dist rest
    else item :: rest

/-- The rewrite applied by advance_without_connections from the head of the
list (the source's group_start is the constant 0). -/
def rewriteRange (items : List BeltItem) (last_index group_size : Nat)
    (tail_next_dist : Option Nat) : List BeltItem :=
  rewriteFrom 0 last_index group_size tail_next_dist items

/-- The merge loop of Belt::advance_without_connections: close the gap after
the head group, fusing its tail entry with the next group's head when the
stacks are equal, otherwise concatenating the groups. Returns the entries
and the back space. The fuel dominates the strictly decreasing measure
(number of entries minus head group size) on well-formed belts. -/
def advanceLoop (fuel : Nat) (items : List BeltItem) (distance_to_move back : Nat) :
    List BeltItem × Nat :=
  match fuel with
  | 0 => (items, back)
  | fuel + 1 =>
    if distance_to_move == 0 || items.isEmpty then (items, back)
    else
      let group_size := (items.headI).group_size
      let group_tail_index := group_size - 1
      match (items.getD group_tail_index default).next_item_dist with
      | none => (items, back)
      | some distance_to_next =>
        if distance_to_next > distance_to_move then
          (items.set group_tail_index
            { items.getD group_tail_index default with
              next_item_dist := some (distance_to_next - distance_to_move) },
            back + distance_to_move)
        else
          let distance_to_move := distance_to_move - distance_to_next
          let back := back + distance_to_next
          let next_group_start := group_tail_index + 1
          if next_group_start ≥ items.length then
            (items.set group_tail_index
              { items.getD group_tail_index default with next_item_dist := none },
              back)
          else
            let next_group_size := (items.getD next_group_start default).group_size
            let next_group_tail := next_group_start + next_group_size - 1
            let tail_next_dist := (items.getD next_group_tail default).next_item_dist
            let should_merge :=
              stackEq (items.getD group_tail_index default).stack
                (items.getD next_group_start default).stack
            if should_merge then
              let addition := (items.getD next_group_start default).stack.multiplicity
              let tail_item := items.getD group_tail_index default
              let items :=
                items.set group_tail_index
                  { tail_item with stack := { tail_item.stack with multiplicity := tail_item.stack.multiplicity + addition } }
              let remaining := next_group_size - 1
              let items := items.eraseIdx next_group_start
              if remaining == 0 then
                advanceLoop fuel (rewriteRange items group_tail_index group_size tail_next_dist)
                  distance_to_move back
              else
                let new_tail_index := next_group_start + remaining - 1
                let new_group_size := group_size + remaining
                advanceLoop fuel (rewriteRange items new_tail_index new_group_size tail_next_dist)
                  distance_to_move back
            else
              let new_tail_index := next_group_tail
              let new_group_size := group_size + next_group_size
              advanceLoop fuel (rewriteRange items new_tail_index new_group_size tail_next_dist)
                distance_to_move back

/-- Belt::advance_without_connections. -/
def advance_without_connections (b : Belt) (distance_to_move : Nat) : Belt :=
  if distance_to_move == 0 || b.items.isEmpty then b
  else if distance_to_move ≤ b.empty_space_front then
    { b with
      empty_space_front := b.empty_space_front - distance_to_move,
      empty_space_back := b.empty_space_back + distance_to_move }
  else
    let distance_to_move := distance_to_move - b.empty_space_front
    let back := b.empty_space_back + b.empty_space_front
    let advanced := advanceLoop (b.items.length + 1) b.items distance_to_move back
    { b with items := advanced.1, empty_space_front := 0, empty_space_back := advanced.2 }

/-- Belt::append_stack_from_connection — glue one incoming stack to the belt
tail (or drop it at the head position when the belt is empty), extending the
tail group by one. -/
def append_stack_from_connection (b : Belt) (stack : Stack) : Belt :=
  match b.items.getLast? with
  | none =>
    let occupied := stack.multiplicity * ITEM_WIDTH
    { b with
      empty_space_front := b.empty_space_front - occupied,
      items := [⟨stack, none, true, true, 1⟩] }
  | some tailItem =>
    let tail_group_size := tailItem.group_size
    let items₁ := setLast b.items { tailItem with next_item_dist := some 0, is_group_tail := false }
    let group_head_index := b.items.length - tail_group_size
    let new_group_size := tail_group_size + 1
    let items₂ := items₁.mapIdx (fun idx item =>
      if group_head_index ≤ idx then
        { item with
          group_size := new_group_size,
          is_group_tail := false,
          is_group_head := idx == group_head_index }
      else item)
    { b with items := items₂ ++ [⟨stack, none, false, true, new_group_size⟩] }

/-- Belt::append_output_batch — full stack first, then the partial stack. -/
def append_output_batch (b : Belt) (batch : OutputBatch) : Belt :=
  let b :=
    match batch.full_stack with
    | some full_stack => b.append_stack_from_connection full_stack
    | none => b
  match batch.partial_stack with
  | some partial_stack => b.append_stack_from_connection partial_stack
  | none => b

/-- Belt::apply_input_connection — convert the freed back space into belt
slots, pull an output batch from the input connection sized to them, append
it, and return the unused space to the back gap. -/
def apply_input_connection (b : Belt) (total_space : Nat) : Belt :=
  match b.input_connection with
  | none => { b with empty_space_back := b.empty_space_back + total_space }
  | some connection =>
    let available_slots := total_space / ITEM_WIDTH
    let leftover_units := total_space % ITEM_WIDTH
    if available_slots > 0 then
      match connection.take_output_batch available_slots with
      | (some batch, connection') =>
        let used_slots := batch.num_stacks
        let b' := { b with input_connection := none }
        let b' := b'.append_output_batch batch
        let unused_slots := available_slots - used_slots
        { b' with
          empty_space_back := b'.empty_space_back + (leftover_units + unused_slots * ITEM_WIDTH),
          input_connection := some connection' }
      | (none, connection') =>
        { b with
          empty_space_back := b.empty_space_back + (leftover_units + available_slots * ITEM_WIDTH),
          input_connection := some connection' }
    else
      { b with empty_space_back := b.empty_space_back + leftover_units }

/-- Belt::run — drain to the output connection, advance and compact what
distance remains, then fill the freed back space from the input connection. -/
def run (b : Belt) (ticks : Nat) : Belt :=
  let total_distance := ticks * b.speed
  let (b₁, distance_remaining, output_connection) :=
    match b.output_connection with
    | none => ({ b with output_connection := none }, total_distance, none)
    | some connection =>
      let (b', consumed, blocked, connection') :=
        drain_to_output { b with output_connection := none } total_distance connection
      let distance_remaining := total_distance - consumed
      if blocked && distance_remaining > 0 then
        (b'.advance_without_connections distance_remaining, 0, some connection')
      else (b', distance_remaining, some connection')
  let b₂ :=
    if distance_remaining > 0 then b₁.advance_without_connections distance_remaining else b₁
  let b₂ := { b₂ with output_connection := output_connection }
  let total_back_space := b₂.empty_space_back
  let b₃ := { b₂ with empty_space_back := 0 }
  b₃.apply_input_connection total_back_space

end Belt

/-- BufferedSplitter from buffered_splitter.rs. -/
structure BufferedSplitter where
  priority_inputs : List BeltInputConnection
  rr_inputs : List BeltInputConnection
  input_rr_index : Nat
  priority_outputs : List BeltOutputConnection
  rr_outputs : List BeltOutputConnection
  output_rr_index : Nat
deriving Repr, DecidableEq, Inhabited

/-- The priority pass of distribute_items: fill each priority output in
order with inc_item_count, stopping early when nothing remains. -/
def fillPriorityOutputs (remaining : Nat) (item_type : ItemType) :
    List BeltOutputConnection → Nat × List BeltOutputConnection
  | [] => (remaining, [])
  | output :: rest =>
    let (leftover, st') := output.state.inc_item_count item_type remaining
    let output' := { output with state := st' }
    if leftover == 0 then (0, output' :: rest)
    else
      let (final, rest') := fillPriorityOutputs leftover item_type rest
      (final, output' :: rest')

/-- The inner index loop of distribute_items' round-robin round: visit
positions i = 0..len-1 at index (rr_index + i) % len — rr_index itself moves
when an extra item is handed out, exactly as in the source — skipping
outputs that cannot take the type, and granting amount_per_belt (+1 for the
first `leftover` positions) via inc_item_count. -/
def distributeRoundGo (item_type : ItemType) (amount_per_belt leftover len : Nat) :
    Nat → Nat → List BeltOutputConnection → Nat → List BeltOutputConnection × Nat
  | 0, _, rr_outputs, rr_index => (rr_outputs, rr_index)
  | iters + 1, i, rr_outputs, rr_index =>
    let index := (rr_index + i) % len
    let output := rr_outputs.getD index default
    if !(output.state.can_take_item_type item_type) then
      distributeRoundGo item_type amount_per_belt leftover len iters (i + 1) rr_outputs rr_index
    else
      let (rr_index', to_give) :=
        if i < leftover then ((index + 1) % len, amount_per_belt + 1)
        else (rr_index, amount_per_belt)
      let (_, st') := output.state.inc_item_count item_type to_give
      distributeRoundGo item_type amount_per_belt leftover len iters (i + 1)
        (rr_outputs.set index { output with state := st' }) rr_index'

/-- The round-robin while loop of distribute_items. The fuel dominates the
strictly decreasing remaining count. -/
def distributeItemsLoop (fuel : Nat) (remaining_item_count : Nat) (item_type : ItemType)
    (rr_outputs : List BeltOutputConnection) (rr_index : Nat) :
    Nat × List BeltOutputConnection × Nat :=
  match fuel with
  | 0 => (remaining_item_count, rr_outputs, rr_index)
  | fuel + 1 =>
    if remaining_item_count == 0 then (remaining_item_count, rr_outputs, rr_index)
    else
      let non_full_outputs :=
        ((rr_outputs.filter (fun c => c.state.can_take_item_type item_type)).map
          (fun c => c.state.max_acceptable_item_count)).filter (fun count => count > 0)
      let num_rr_outputs := non_full_outputs.length
      let amount_acceptable_per_belt := (non_full_outputs.min?).getD 0
      if amount_acceptable_per_belt == 0 then (remaining_item_count, rr_outputs, rr_index)
      else
        let amount_to_distribute :=
          min remaining_item_count (amount_acceptable_per_belt * num_rr_outputs)
        let amount_per_belt := amount_to_distribute / num_rr_outputs
        let leftover := amount_to_distribute % num_rr_outputs
        let (rr_outputs', rr_index') :=
          distributeRoundGo item_type amount_per_belt leftover rr_outputs.length
            rr_outputs.length 0 rr_outputs rr_index
        distributeItemsLoop fuel (remaining_item_count - amount_to_distribute) item_type
          rr_outputs' rr_index'

/-- distribute_items from buffered_splitter.rs: priority outputs greedily in
order, then fast-forwarded round-robin rounds. Returns the undistributed
count, the updated outputs, and the updated cursor. -/
def distribute_items (remaining_item_count : Nat) (item_type : ItemType)
    (priority_outputs : List BeltOutputConnection) (rr_outputs : List BeltOutputConnection)
    (rr_index : Nat) : Nat × List BeltOutputConnection × List BeltOutputConnection × Nat :=
  let (remaining, priority_outputs') :=
    fillPriorityOutputs remaining_item_count item_type priority_outputs
  if remaining == 0 then (0, priority_outputs', rr_outputs, rr_index)
  else if rr_outputs.isEmpty then (remaining, priority_outputs', rr_outputs, rr_index)
  else
    let (remaining', rr_outputs', rr_index') :=
      distributeItemsLoop (remaining + 1) remaining item_type rr_outputs rr_index
    (remaining', priority_outputs', rr_outputs', rr_index')

/-- The inner index loop of drain_connections' fast-forward: visit inputs at
(input_rr_index + i) % len — the cursor moves when an extra item is taken,
as in the source — skipping inputs whose current type differs, and taking
amount_per_belt (+1 for the first `leftover` positions) via dec_item_count. -/
def drainFFGo (item_type : ItemType) (amount_per_belt leftover len : Nat) :
    Nat → Nat → List BeltInputConnection → Nat → List BeltInputConnection × Nat
  | 0, _, rr_inputs, input_rr_index => (rr_inputs, input_rr_index)
  | iters + 1, i, rr_inputs, input_rr_index =>
    let index := (input_rr_index + i) % len
    let input := rr_inputs.getD index default
    if input.state.current_item_type != some item_type then
      drainFFGo item_type amount_per_belt leftover len iters (i + 1) rr_inputs input_rr_index
    else
      let (input_rr_index', to_take) :=
        if i < leftover then ((index + 1) % len, amount_per_belt + 1)
        else (input_rr_index, amount_per_belt)
      let (_, st') := input.state.dec_item_count to_take
      drainFFGo item_type amount_per_belt leftover len iters (i + 1)
        (rr_inputs.set index { input with state := st' }) input_rr_index'

/-- The fast-forward while loop of drain_connections. The fuel dominates the
strictly decreasing consumed count. -/
def drainFFLoop (fuel : Nat) (consumed_item_count : Nat) (item_type : ItemType)
    (rr_inputs : List BeltInputConnection) (input_rr_index : Nat) :
    List BeltInputConnection × Nat :=
  match fuel with
  | 0 => (rr_inputs, input_rr_index)
  | fuel + 1 =>
    if consumed_item_count == 0 then (rr_inputs, input_rr_index)
    else
      let non_empty_inputs :=
        ((rr_inputs.map (fun c => c.state.buffered_item_count)).filter (fun count => count > 0))
      let num_non_empty := non_empty_inputs.length
      let amount_consumable_per_belt := (non_empty_inputs.min?).getD 0
      if amount_consumable_per_belt == 0 then (rr_inputs, input_rr_index)
      else
        let amount_to_take :=
          min consumed_item_count (amount_consumable_per_belt * num_non_empty)
        let amount_per_belt := amount_to_take / num_non_empty
        let leftover := amount_to_take % num_non_empty
        let (rr_inputs', input_rr_index') :=
          drainFFGo item_type amount_per_belt leftover rr_inputs.length
            rr_inputs.length 0 rr_inputs input_rr_index
        drainFFLoop fuel (consumed_item_count - amount_to_take) item_type
          rr_inputs' input_rr_index'

/-- drain_connections from buffered_splitter.rs: distribute the inputs'
buffered total of `item_type`, then fast-forward the round-robin consumption
from the inputs. -/
def drain_connections (item_type : ItemType) (rr_inputs : List BeltInputConnection)
    (input_rr_index : Nat) (priority_outputs : List BeltOutputConnection)
    (rr_outputs : List BeltOutputConnection) (output_rr_index : Nat) :
    List BeltInputConnection × Nat × List BeltOutputConnection × List BeltOutputConnection × Nat :=
  if rr_inputs.isEmpty then
    (rr_inputs, input_rr_index, priority_outputs, rr_outputs, output_rr_index)
  else
    let item_count :=
      ((rr_inputs.filter (fun c => c.state.current_item_type == some item_type)).map
        (fun c => c.state.buffered_item_count)).sum
    let (remaining_item_count, priority_outputs', rr_outputs', output_rr_index') :=
      distribute_items item_count item_type priority_outputs rr_outputs output_rr_index
    let consumed_item_count := item_count - remaining_item_count
    let (rr_inputs', input_rr_index') :=
      drainFFLoop (consumed_item_count + 1) consumed_item_count item_type
        rr_inputs input_rr_index
    (rr_inputs', input_rr_index', priority_outputs', rr_outputs', output_rr_index')

/-- The inner search of rr_loop_once: find the first output at offset j from
output_rr_index that can take the type; deposit one item there and return
the outputs and the advanced cursor. -/
def rrAssignGo (item_type : ItemType) (len : Nat) :
    Nat → Nat → List BeltOutputConnection → Nat → Option (List BeltOutputConnection × Nat)
  | 0, _, _, _ => none
  | iters + 1, j, rr_outputs, output_rr_index =>
    let output_index := (output_rr_index + j) % len
    let output := rr_outputs.getD output_index default
    if output.state.can_take_item_type item_type then
      let (_, st') := output.state.inc_item_count item_type 1
      some (rr_outputs.set output_index { output with state := st' }, (output_index + 1) % len)
    else rrAssignGo item_type len iters (j + 1) rr_outputs output_rr_index

/-- The outer loop of rr_loop_once over each input position once. -/
def rrLoopOnceGo (input_len : Nat) :
    Nat → Nat → List BeltInputConnection → List BeltOutputConnection → Nat → Nat →
    List BeltInputConnection × List BeltOutputConnection × Nat
  | 0, _, rr_inputs, rr_outputs, _, output_rr_index => (rr_inputs, rr_outputs, output_rr_index)
  | iters + 1, i, rr_inputs, rr_outputs, input_rr_index, output_rr_index =>
    let input_index := (input_rr_index + i) % input_len
    let input := rr_inputs.getD input_index default
    match input.state.current_item_type with
    | none =>
      rrLoopOnceGo input_len iters (i + 1) rr_inputs rr_outputs input_rr_index output_rr_index
    | some item_type =>
      match rrAssignGo item_type rr_outputs.length rr_outputs.length 0 rr_outputs output_rr_index with
      | some (rr_outputs', output_rr_index') =>
        let (_, st') := input.state.dec_item_count 1
        rrLoopOnceGo input_len iters (i + 1)
          (rr_inputs.set input_index { input with state := st' }) rr_outputs'
          input_rr_index output_rr_index'
      | none =>
        rrLoopOnceGo input_len iters (i + 1) rr_inputs rr_outputs input_rr_index output_rr_index

/-- rr_loop_once from buffered_splitter.rs: walk each rr input once, placing
one item of its current type into the next accepting rr output; the output
cursor advances past each accepting output, the input cursor is untouched. -/
def rr_loop_once (rr_inputs : List BeltInputConnection) (rr_outputs : List BeltOutputConnection)
    (input_rr_index output_rr_index : Nat) :
    List BeltInputConnection × List BeltOutputConnection × Nat :=
  if rr_inputs.isEmpty || rr_outputs.isEmpty then (rr_inputs, rr_outputs, output_rr_index)
  else rrLoopOnceGo rr_inputs.length rr_inputs.length 0 rr_inputs rr_outputs input_rr_index output_rr_index

/-- Insertion of one element into a sorted list (ascending). -/
def insertSorted (x : Nat) : List Nat → List Nat
  | [] => [x]
  | y :: rest => if x ≤ y then x :: y :: rest else y :: insertSorted x rest

/-- Ascending sort, the effect of the source's sort_unstable on item types. -/
def sortNat (l : List Nat) : List Nat := l.foldr insertSorted []

/-- Removal of consecutive duplicates, the effect of Vec::dedup. -/
def dedupConsecutive : List Nat → List Nat
  | [] => []
  | [x] => [x]
  | x :: y :: rest =>
    if x == y then dedupConsecutive (y :: rest) else x :: dedupConsecutive (y :: rest)

/-- The sorted, deduplicated list of current item types of the given inputs
(buffered_splitter.rs builds it twice in run). -/
def currentTypes (rr_inputs : List BeltInputConnection) : List ItemType :=
  dedupConsecutive (sortNat (rr_inputs.filterMap (fun c => c.state.current_item_type)))

/-- Stage 1 of BufferedSplitter::run: each priority input in order is
drained as a one-element slice through drain_connections. -/
def stage1Go : List BeltInputConnection → Nat → List BeltOutputConnection →
    List BeltOutputConnection → Nat →
    List BeltInputConnection × Nat × List BeltOutputConnection × List BeltOutputConnection × Nat
  | [], input_rr_index, priority_outputs, rr_outputs, output_rr_index =>
    ([], input_rr_index, priority_outputs, rr_outputs, output_rr_index)
  | input :: rest, input_rr_index, priority_outputs, rr_outputs, output_rr_index =>
    match input.state.current_item_type with
    | none =>
      let (rest', i', p', r', o') := stage1Go rest input_rr_index priority_outputs rr_outputs output_rr_index
      (input :: rest', i', p', r', o')
    | some item_type =>
      let (inputs₁, i₁, p₁, r₁, o₁) :=
        drain_connections item_type [input] input_rr_index priority_outputs rr_outputs output_rr_index
      let input' := inputs₁.headI
      let (rest', i', p', r', o') := stage1Go rest i₁ p₁ r₁ o₁
      (input' :: rest', i', p', r', o')

/-- Stage 2 of BufferedSplitter::run: for each present type, drain rr inputs
into the priority outputs only (fresh throwaway cursor per type). -/
def stage2Go : List ItemType → List BeltInputConnection → Nat → List BeltOutputConnection →
    List BeltInputConnection × Nat × List BeltOutputConnection
  | [], rr_inputs, input_rr_index, priority_outputs => (rr_inputs, input_rr_index, priority_outputs)
  | item_type :: rest, rr_inputs, input_rr_index, priority_outputs =>
    let (inputs', i', p', _, _) :=
      drain_connections item_type rr_inputs input_rr_index priority_outputs [] 0
    stage2Go rest inputs' i' p'

/-- Stage 4 of BufferedSplitter::run: for each present type, drain rr inputs
into priority and rr outputs with the persistent cursors. -/
def stage4Go : List ItemType → List BeltInputConnection → Nat → List BeltOutputConnection →
    List BeltOutputConnection → Nat →
    List BeltInputConnection × Nat × List BeltOutputConnection × List BeltOutputConnection × Nat
  | [], rr_inputs, input_rr_index, priority_outputs, rr_outputs, output_rr_index =>
    (rr_inputs, input_rr_index, priority_outputs, rr_outputs, output_rr_index)
  | item_type :: rest, rr_inputs, input_rr_index, priority_outputs, rr_outputs, output_rr_index =>
    let (inputs', i', p', r', o') :=
      drain_connections item_type rr_inputs input_rr_index priority_outputs rr_outputs output_rr_index
    stage4Go rest inputs' i' p' r' o'

/-- BufferedSplitter::run — the four stages in order. -/
def BufferedSplitter.run (s : BufferedSplitter) : BufferedSplitter :=
  let (priority_inputs', i₁, p₁, r₁, o₁) :=
    stage1Go s.priority_inputs s.input_rr_index s.priority_outputs s.rr_outputs s.output_rr_index
  let types₂ := currentTypes s.rr_inputs
  let (rr_inputs₂, i₂, p₂) := stage2Go types₂ s.rr_inputs i₁ p₁
  let (rr_inputs₃, rr_outputs₃, o₃) := rr_loop_once rr_inputs₂ r₁ i₂ o₁
  let types₄ := currentTypes rr_inputs₃
  let (rr_inputs₄, i₄, p₄, r₄, o₄) := stage4Go types₄ rr_inputs₃ i₂ p₂ rr_outputs₃ o₃
  { priority_inputs := priority_inputs', rr_inputs := rr_inputs₄, input_rr_index := i₄,
    priority_outputs := p₄, rr_outputs := r₄, output_rr_index := o₄ }

/-- The round-robin cursor state of the direct Splitter (splitter.rs). -/
structure SplitterState where
  input_rr_index : Nat
  output_rr_index : Nat
deriving Repr, DecidableEq, Inhabited

/-- Modelled from the spec: Belt::peek_front_stack, called by splitter.rs but
absent from the belt.rs under src/. Per §4.4.3 the direct splitter "peeks
the head stack of each source belt"; symmetrically to remove_item (whose
success the source pairs with this peek via a debug assertion), it yields the
head entry's stack when no front gap hides it, together with the entry's
distance to the next entry (the component the splitter ignores). -/
def Belt.peek_front_stack (b : Belt) : Option (Stack × Option Nat) :=
  if b.empty_space_front > 0 then none
  else
    match b.items with
    | [] => none
    | front_item :: _ => some (front_item.stack, front_item.next_item_dist)

/-- Splitter::try_assign_priority — offer Stack::new(type, count) to each
priority output belt in order; the first accepting add_item wins. -/
def try_assign_priority (stack : Stack) : List Belt → Bool × List Belt
  | [] => (false, [])
  | output :: rest =>
    let (ok, output') := output.add_item (Stack.new stack.item_type stack.item_count)
    if ok then (true, output' :: rest)
    else
      let (r, rest') := try_assign_priority stack rest
      (r, output :: rest')

/-- The offset search of Splitter::try_assign_rr. -/
def tryAssignRRGo (stack : Stack) (len : Nat) :
    Nat → Nat → SplitterState → List Belt → Bool × SplitterState × List Belt
  | 0, _, st, rr_outputs => (false, st, rr_outputs)
  | iters + 1, offset, st, rr_outputs =>
    let idx := (st.output_rr_index + offset) % len
    let attempt := (rr_outputs.getD idx default).add_item (Stack.new stack.item_type stack.item_count)
    if attempt.1 then (true, { st with output_rr_index := (idx + 1) % len }, rr_outputs.set idx attempt.2)
    else tryAssignRRGo stack len iters (offset + 1) st rr_outputs

/-- Splitter::try_assign_rr — normalise the output cursor into range, then
try each rr output belt from the cursor onwards; on a successful add_item
the cursor is set just past the accepting output. -/
def try_assign_rr (st : SplitterState) (stack : Stack) (rr_outputs : List Belt) :
    Bool × SplitterState × List Belt :=
  let len := rr_outputs.length
  if len == 0 then (false, st, rr_outputs)
  else
    let st :=
      if st.output_rr_index ≥ len then { st with output_rr_index := st.output_rr_index % len }
      else st
    tryAssignRRGo stack len len 0 st rr_outputs

/-- One iteration of the inner for loop of Splitter::drain_rr_inputs_to_rr:
peek the belt at the input cursor, try a round-robin placement, remove the
placed item, and advance the input cursor by one regardless of success.
Returns whether an item was placed. -/
def rrStep (st : SplitterState) (rr_inputs rr_outputs : List Belt) :
    Bool × SplitterState × List Belt × List Belt :=
  let input_len := rr_inputs.length
  let idx := st.input_rr_index
  let belt := rr_inputs.getD idx default
  match belt.peek_front_stack with
  | some (stack, _) =>
    let attempt := try_assign_rr st stack rr_outputs
    let st' := attempt.2.1
    let rr_inputs' := if attempt.1 then rr_inputs.set idx (belt.remove_item).2 else rr_inputs
    (attempt.1, { st' with input_rr_index := (st'.input_rr_index + 1) % input_len },
      rr_inputs', attempt.2.2)
  | none =>
    (false, { st with input_rr_index := (st.input_rr_index + 1) % input_len },
      rr_inputs, rr_outputs)

/-- The cursor normalisation at the top of Splitter::run: an index of an
empty set is reset to 0, an out-of-range index is reduced modulo the set
size. -/
def Splitter.normalizeIndices (st : SplitterState) (input_len output_len : Nat) : SplitterState :=
  let st :=
    if input_len == 0 then { st with input_rr_index := 0 }
    else if st.input_rr_index ≥ input_len then { st with input_rr_index := st.input_rr_index % input_len }
    else st
  if output_len == 0 then { st with output_rr_index := 0 }
  else if st.output_rr_index ≥ output_len then { st with output_rr_index := st.output_rr_index % output_len }
  else st

/-! Measurements and invariant predicates used by the claims. -/

/-- The items carried by a belt: Σ item_count · multiplicity over entries. -/
def beltItemTotal (b : Belt) : Nat :=
  (b.items.map (fun it => it.stack.item_count * it.stack.multiplicity)).sum

/-- The items a connection state's buffer represents, counting the stored
stack's multiplicity (the generous reading; buffered_item_count ignores it). -/
def connStateTotal (st : ConnectionState) : Nat :=
  match st.buffer with
  | some s => s.item_count * s.multiplicity
  | none => 0

/-- The items buffered in an optional belt connection. -/
def connTotal (c : Option BeltConnection) : Nat :=
  match c with
  | some c => connStateTotal c.state
  | none => 0

/-- The total item count of a buffered splitter across all its connections. -/
def splitterItemTotal (s : BufferedSplitter) : Nat :=
  (s.priority_inputs.map (fun c => connStateTotal c.state)).sum +
  (s.rr_inputs.map (fun c => connStateTotal c.state)).sum +
  (s.priority_outputs.map (fun c => connStateTotal c.state)).sum +
  (s.rr_outputs.map (fun c => connStateTotal c.state)).sum

/-- The occupied length of a belt's entries: multiplicity · ITEM_WIDTH per
entry plus all inter-entry distances (spec §3.4). -/
def occupiedLength (items : List BeltItem) : Nat :=
  (items.map (fun it => it.stack.multiplicity * ITEM_WIDTH + it.next_item_dist.getD 0)).sum

/-- The space-accounting equation of spec §3.4, exactly as claimed:
empty_space_front + occupied length + empty_space_back = length. -/
def spaceEquation (b : Belt) : Prop :=
  b.empty_space_front + occupiedLength b.items + b.empty_space_back = b.length

instance : DecidablePred spaceEquation := fun _ => Nat.decEq _ _

/-- A fusable adjacent pair: the first entry is Stack-equal to the second
and sits at zero gap from it. -/
def fusableB (x y : BeltItem) : Bool :=
  stackEq x.stack y.stack && (x.next_item_dist == some 0)

/-- No pair of adjacent entries is simultaneously Stack-equal and separated
by zero gap (the fusion law of spec §3.4). -/
def nfpB : List BeltItem → Bool
  | [] => true
  | [_] => true
  | a :: b :: rest => !(fusableB a b) && nfpB (b :: rest)

/-- The group structure advance_without_connections relies on: the entries
split into blocks; each block's head entry records the block length as its
group_size; inside a block every entry but the last points at the next with
distance 0; a block's last entry carries the gap to the next block, and only
the belt's final entry carries none. -/
inductive WFB : List BeltItem → Prop
  | nil : WFB []
  | last : ∀ (P : List BeltItem) (bl : BeltItem),
      (P ++ [bl]).headI.group_size = P.length + 1 →
      (∀ a ∈ P, a.next_item_dist = some 0) →
      bl.next_item_dist = none →
      WFB (P ++ [bl])
  | cons : ∀ (P : List BeltItem) (bl : BeltItem) (d : Nat) (rest : List BeltItem),
      (P ++ bl :: rest).headI.group_size = P.length + 1 →
      (∀ a ∈ P, a.next_item_dist = some 0) →
      bl.next_item_dist = some d →
      rest ≠ [] → WFB rest →
      WFB (P ++ bl :: rest)

/-- Bool version of WFB, structurally recursive over a length fuel. -/
def wfbAux : Nat → List BeltItem → Bool
  | _, [] => true
  | 0, _ :: _ => false
  | fuel + 1, l@(h :: _) =>
    let g := h.group_size
    decide (1 ≤ g) && decide (g ≤ l.length) &&
    ((l.take (g - 1)).all (fun it => it.next_item_dist == some 0)) &&
    (match (l.getD (g - 1) default).next_item_dist with
     | none => decide (g = l.length)
     | some _ => decide (g < l.length) && wfbAux fuel (l.drop g))

/-- Well-formed group structure, decidably. -/
def wfb (l : List BeltItem) : Bool := wfbAux l.length l

/-- The connection-buffer invariants of spec §3.2 / §8.5: at most one stored
stack, of multiplicity 1, within the item limit, of a filter-approved type. -/
def connInvB (st : ConnectionState) : Bool :=
  match st.buffer with
  | none => true
  | some b =>
    (b.multiplicity == 1) && decide (b.item_count ≤ st.item_limit) &&
    st.filterAllows b.item_type

/-- The cap-and-multiplicity part of the connection invariants (no filter
clause). -/
def connCapMultB (st : ConnectionState) : Bool :=
  match st.buffer with
  | none => true
  | some b => (b.multiplicity == 1) && decide (b.item_count ≤ st.item_limit)

/-- Proposition form of the no-fusable-pair relation on adjacent entries. -/
def noFuse (x y : BeltItem) : Prop := ¬ (fusableB x y = true)

/-- Proposition form of the fusion law over a whole entry list. -/
def NFP (l : List BeltItem) : Prop := List.Chain' noFuse l

/-- Adjacent stacks differ (ignoring multiplicity). -/
def stackNe (a b : Stack) : Prop := stackEq a b = false

/-- A chain of pairwise-distinct adjacent stacks. -/
def SCs (l : List Stack) : Prop := List.Chain' stackNe l

/-! Concrete states used by counterexamples, code-bug evaluations and
witnesses. -/

/-- A belt whose head entry has multiplicity 2, with an output connection
already holding one item of the same stack shape (reachable by merging two
added equal stacks and accepting one earlier stack). -/
def exC1belt : Belt :=
  { length := 5 * ITEM_WIDTH, speed := ITEM_WIDTH,
    items := [⟨⟨1, 1, 2⟩, none, true, true, 1⟩],
    empty_space_front := 0, empty_space_back := 3 * ITEM_WIDTH,
    input_connection := none,
    output_connection := some ⟨.Output, ⟨10, none, some ⟨1, 1, 1⟩⟩, 1⟩ }

/-- The duplication configuration for the buffered splitter: two rr inputs
holding one item each of distinct types, one priority output of limit 1. -/
def exC2splitter : BufferedSplitter :=
  ⟨[], [⟨⟨5, none, some ⟨2, 1, 1⟩⟩⟩, ⟨⟨5, none, some ⟨1, 1, 1⟩⟩⟩], 0,
    [⟨⟨1, none, none⟩, 1⟩], [], 0⟩

/-- A five-slot belt holding one added stack mid-belt with an attached
output connection — the run(0) configuration that destroys the front gap. -/
def exC3belt : Belt :=
  { ((Belt.new (5 * ITEM_WIDTH) ITEM_WIDTH).add_item ⟨1, 1, 1⟩).2 with
    output_connection := some ⟨.Output, ⟨10, none, none⟩, 1⟩ }

/-- A belt whose tail entry equals the full stack its input connection will
emit in the fill phase. -/
def exC4belt : Belt :=
  { length := 10 * ITEM_WIDTH, speed := ITEM_WIDTH,
    items := [⟨⟨42, 3, 1⟩, none, true, true, 1⟩],
    empty_space_front := 0, empty_space_back := 9 * ITEM_WIDTH,
    input_connection := some ⟨.Input, ⟨10, none, some ⟨42, 3, 1⟩⟩, 3⟩,
    output_connection := none }

/-- A two-block belt with no connections: two equal singleton stacks one
slot apart — the witness configuration for the amended fusion law. -/
def exC4witnessBelt : Belt :=
  { length := 6 * ITEM_WIDTH, speed := ITEM_WIDTH,
    items := [⟨⟨9, 1, 1⟩, some ITEM_WIDTH, true, true, 1⟩, ⟨⟨9, 1, 1⟩, none, true, true, 1⟩],
    empty_space_front := 0, empty_space_back := 3 * ITEM_WIDTH,
    input_connection := none, output_connection := none }

/-- A connection state holding one item of type 1 under limit 10. -/
def exC5state : ConnectionState := ⟨10, none, some ⟨1, 1, 1⟩⟩

/-- A multiplicity-2 stack of two single items. -/
def exC5stack : Stack := ⟨1, 1, 2⟩

/-- Round-robin outputs for the distribute_items evaluation: the first
holds a different type, the other two are empty with room for nine. -/
def exC6outputs : List BeltOutputConnection :=
  [⟨⟨9, none, some ⟨2, 1, 1⟩⟩, 1⟩, ⟨⟨9, none, none⟩, 1⟩, ⟨⟨9, none, none⟩, 1⟩]

/-- An empty connection state whose filter admits only type 1. -/
def exC7state : ConnectionState := ⟨5, some [1], none⟩

/-- A filtered connection state holding two items of the approved type. -/
def exC7witnessState : ConnectionState := ⟨5, some [1], some ⟨1, 2, 1⟩⟩

/-- A five-slot belt with a single stack run up against the front. -/
def exC8belt : Belt :=
  (((Belt.new (5 * ITEM_WIDTH) 1).add_item ⟨42, 1, 1⟩).2).run (4 * ITEM_WIDTH)

/-- A belt whose head entry has multiplicity 2 at the front (witness input
for the remove_item characterisation). -/
def exC8witnessBelt : Belt :=
  { length := 5 * ITEM_WIDTH, speed := 1,
    items := [⟨⟨7, 2, 2⟩, none, true, true, 1⟩],
    empty_space_front := 0, empty_space_back := 3 * ITEM_WIDTH,
    input_connection := none, output_connection := none }

/-- Direct-splitter configuration: the belt at the input cursor is empty,
the second input belt and the output belt hold room and an item. -/
def exC9inputs : List Belt :=
  [Belt.new ITEM_WIDTH 1, (((Belt.new ITEM_WIDTH 1).add_item ⟨3, 1, 1⟩)).2]

/-- One empty output belt for the direct-splitter step. -/
def exC9outputs : List Belt := [Belt.new (2 * ITEM_WIDTH) 1]

/-!  Theorems settling the claims. -/

/-- C1: the claim states that Belt::run conserves the total item count
(belt entries plus connection buffers, counting multiplicities) apart from
what Output connections explicitly absorb. The code refutes it: running a
belt whose head entry has multiplicity 2 towards an output connection that
already buffers one equal stack moves two items off the belt but raises the
buffered count by one — accept_stack adds only stack.item_count and ignores
the accepted stack's multiplicity, so one item vanishes. -/
theorem c1_run_loses_items :
    beltItemTotal exC1belt + connTotal exC1belt.output_connection = 3 ∧
    beltItemTotal (exC1belt.run 2) + connTotal (exC1belt.run 2).output_connection = 2 := by
  constructor <;> rfl

/-- C2: the claim states that BufferedSplitter::run ends in the same state
as a one-item-at-a-time reference. The code refutes it: with rr inputs
holding one item of type 2 and one of type 1 and a single priority output of
limit 1, run duplicates an item — the fast-forward drain counts non-empty
inputs regardless of their type and assigns the leftover by loop position,
so it decrements nothing while distribute_items has already deposited one
item. Any faithful per-item reference conserves the two items; run ends
with three. -/
theorem c2_splitter_run_duplicates_items :
    splitterItemTotal exC2splitter = 2 ∧
    splitterItemTotal exC2splitter.run = 3 ∧
    (exC2splitter.run.rr_inputs.map (fun c => connStateTotal c.state)) = [1, 1] ∧
    (exC2splitter.run.priority_outputs.map (fun c => connStateTotal c.state)) = [1] := by
  refine ⟨rfl, rfl, rfl, rfl⟩

/-- C3: the claim states that the space-accounting equation survives every
public belt operation that returns. The code refutes it for run: on a belt
holding one stack behind a four-slot front gap with an output connection
attached, run(0) reaches drain_to_output with zero distance and a positive
front gap and overwrites empty_space_front with the zero remaining distance,
so four slots of space vanish and the equation (which held before) fails
afterwards — the state the code's own sanity_check rejects. -/
theorem c3_run_breaks_space_equation :
    spaceEquation exC3belt ∧ ¬ spaceEquation (exC3belt.run 0) := by
  constructor
  · rfl
  · decide

/-- C5: the claim states that a successful accept_stack raises the buffered
item count by exactly item_count · multiplicity. The code refutes it: a
stack of item_count 1 and multiplicity 2 is certified by can_accept_stack
against limit 10 (1 + 1·2 ≤ 10) and accepted, yet the buffered count grows
from 1 to 2, not to 3 — accept_stack sums only item_count. -/
theorem c5_accept_stack_ignores_multiplicity :
    exC5state.can_accept_stack exC5stack = true ∧
    (exC5state.accept_stack exC5stack).1 = true ∧
    exC5state.buffered_item_count = 1 ∧
    (exC5state.accept_stack exC5stack).2.buffered_item_count = 2 ∧
    exC5stack.item_count * exC5stack.multiplicity = 2 := by
  refine ⟨rfl, rfl, rfl, rfl, rfl⟩

/-- C6: the claim describes each round of distribute_items as granting
chunk / k to each of the k eligible outputs and one extra to the first
chunk mod k eligible outputs from the cursor, returning exactly the
undeposited count. The code refutes it: with three items of type 1 and
outputs [other-type holder, empty, empty], k = 2 and chunk = 3, the claim
deposits 2 and 1 and advances the cursor by 1; the code skips the first
output but still counts its loop position against the leftover window, so
it deposits 1 and 1, leaves the cursor at 0, and reports 0 remaining — one
item is silently dropped. -/
theorem c6_distribute_items_skips_and_drops :
    (distribute_items 3 1 [] exC6outputs 0).1 = 0 ∧
    ((distribute_items 3 1 [] exC6outputs 0).2.2.1.map
      (fun c => connStateTotal c.state)) = [1, 1, 1] ∧
    (distribute_items 3 1 [] exC6outputs 0).2.2.2 = 0 := by
  refine ⟨rfl, rfl, rfl⟩

/-- C10: max_acceptable_stacks returns 0 whenever the offered stack's
multiplicity differs from 1, regardless of capacity; and for a
multiplicity-1 stack that passes the filter with item_count 0 it returns
u32::MAX regardless of the buffer's contents or the item limit. (The second
clause concerns stacks the first has not already dismissed: the source
checks multiplicity before anything else.) -/
theorem c10_max_acceptable_stacks_edges (st : ConnectionState) (s : Stack) :
    (s.multiplicity ≠ 1 → st.max_acceptable_stacks s = 0) ∧
    (s.multiplicity = 1 → st.filterAllows s.item_type = true → s.item_count = 0 →
      st.max_acceptable_stacks s = UINT32_MAX) := by
  constructor
  · intro hm
    unfold ConnectionState.max_acceptable_stacks
    have : (s.multiplicity != 1) = true := by
      simp [bne_iff_ne, hm]
    simp [this]
  · intro hm hf hc
    unfold ConnectionState.max_acceptable_stacks
    simp [hm, hf, hc]

/-- Witness for C10 at concrete inputs: a multiplicity-3 stack is refused
outright, and a zero-count multiplicity-1 stack yields u32::MAX. -/
theorem c10_max_acceptable_stacks_witness :
    ConnectionState.max_acceptable_stacks ⟨5, none, none⟩ ⟨1, 2, 3⟩ = 0 ∧
    ConnectionState.max_acceptable_stacks ⟨5, none, some ⟨1, 5, 1⟩⟩ ⟨1, 0, 1⟩ = UINT32_MAX := by
  exact ⟨(c10_max_acceptable_stacks_edges ⟨5, none, none⟩ ⟨1, 2, 3⟩).1 (by decide),
    (c10_max_acceptable_stacks_edges ⟨5, none, some ⟨1, 5, 1⟩⟩ ⟨1, 0, 1⟩).2 rfl rfl rfl⟩

/-- Helper: filterAllows ignores the buffer. -/
theorem filterAllows_with_buffer (st : ConnectionState) (buf : Option Stack) (t : ItemType) :
    ConnectionState.filterAllows { st with buffer := buf } t = st.filterAllows t := rfl

/-- Helper: the connection invariants of an empty buffer hold. -/
theorem connInvB_none (lim : Nat) (filt : Option (List ItemType)) :
    connInvB ⟨lim, filt, none⟩ = true := rfl

/-- Helper: building the connection invariants for a stored stack. -/
theorem connInvB_mk (lim : Nat) (filt : Option (List ItemType)) (b : Stack)
    (h1 : b.multiplicity = 1) (h2 : b.item_count ≤ lim)
    (h3 : ConnectionState.filterAllows ⟨lim, filt, some b⟩ b.item_type = true) :
    connInvB ⟨lim, filt, some b⟩ = true := by
  simp [connInvB, h1, h2, h3]

/-- Helper: building the connection invariants for a literal stored stack. -/
theorem connInvB_mk3 (lim : Nat) (filt : Option (List ItemType)) (t c m : Nat)
    (h1 : m = 1) (h2 : c ≤ lim)
    (h3 : ConnectionState.filterAllows ⟨lim, filt, some ⟨t, c, m⟩⟩ t = true) :
    connInvB ⟨lim, filt, some ⟨t, c, m⟩⟩ = true := by
  subst h1
  simp [connInvB, h2]
  exact h3

/-- Helper: the full connection invariants imply the cap and multiplicity
part. -/
theorem connCapMultB_of_inv (st : ConnectionState) (h : connInvB st = true) :
    connCapMultB st = true := by
  unfold connInvB at h
  unfold connCapMultB
  rcases hbuf : st.buffer with _ | b
  · rfl
  · simp only [hbuf] at h
    simp only [Bool.and_eq_true] at h ⊢
    exact h.1

/-- Helper: destructing the connection invariants at a stored stack. -/
theorem connInvB_destruct (st : ConnectionState) (b : Stack) (h : connInvB st = true)
    (hb : st.buffer = some b) :
    b.multiplicity = 1 ∧ b.item_count ≤ st.item_limit ∧ st.filterAllows b.item_type = true := by
  unfold connInvB at h
  simp only [hb] at h
  simp only [Bool.and_eq_true, beq_iff_eq, decide_eq_true_eq] at h
  exact ⟨h.1.1, h.1.2, h.2⟩

/-- Helper: what a successful can_accept_stack certifies. -/
theorem can_accept_stack_spec (st : ConnectionState) (s : Stack)
    (h : st.can_accept_stack s = true) :
    st.filterAllows s.item_type = true ∧
    (s.item_count * s.multiplicity ≠ 0 →
      (∀ ex, st.buffer = some ex →
        ex.item_type = s.item_type ∧
        ex.item_count + s.item_count * s.multiplicity ≤ st.item_limit) ∧
      (st.buffer = none → s.item_count * s.multiplicity ≤ st.item_limit)) := by
  unfold ConnectionState.can_accept_stack at h
  by_cases hf : st.filterAllows s.item_type = true
  · refine ⟨hf, ?_⟩
    intro hnz
    simp only [hf, Bool.not_true, Bool.false_eq_true, if_false] at h
    have h0 : (s.item_count * s.multiplicity == 0) = false := by
      simpa using hnz
    simp only [h0, Bool.false_eq_true, if_false] at h
    rcases hbuf : st.buffer with _ | ex
    · simp only [hbuf] at h
      refine ⟨fun ex hex => by simp [hbuf] at hex, fun _ => by simpa using h⟩
    · simp only [hbuf] at h
      by_cases hty : (ex.item_type != s.item_type) = true
      · simp [hty] at h
      · have hty' : ex.item_type = s.item_type := by
          simpa using hty
        simp only [hty, Bool.false_eq_true, if_false, decide_eq_true_eq] at h
        refine ⟨fun ex' hex' => ?_, fun hn => by simp [hbuf] at hn⟩
        have hxx : ex' = ex := (Option.some.inj hex').symm
        subst hxx
        exact ⟨hty', h⟩
  · exfalso
    have hfe : st.filterAllows s.item_type = false := by simpa using hf
    simp [hfe] at h

/-- Helper: accept_stack of a multiplicity-1 stack preserves the connection
invariants. -/
theorem accept_stack_preserves_inv (st : ConnectionState) (s : Stack)
    (h : connInvB st = true) (hm : s.multiplicity = 1) :
    connInvB (st.accept_stack s).2 = true := by
  unfold ConnectionState.accept_stack
  by_cases hca : st.can_accept_stack s = true
  · simp only [hca, Bool.not_true, Bool.false_eq_true, if_false]
    have hspec := can_accept_stack_spec st s hca
    rcases hbuf : st.buffer with _ | existing
    · simp only
      refine connInvB_mk st.item_limit st.item_filter s hm ?_ ?_
      · rcases hc : s.item_count with _ | c
        · exact Nat.zero_le _
        · have hnz : s.item_count * s.multiplicity ≠ 0 := by
            rw [hc, hm]; omega
          have := (hspec.2 hnz).2 hbuf
          rw [hm, Nat.mul_one] at this
          omega
      · exact hspec.1
    · simp only
      rcases connInvB_destruct st existing h hbuf with ⟨he1, he2, he3⟩
      refine connInvB_mk st.item_limit st.item_filter _ he1 ?_ he3
      rcases hc : s.item_count with _ | c
      · simpa [hc] using he2
      · have hnz : s.item_count * s.multiplicity ≠ 0 := by
          rw [hc, hm]; omega
        have := ((hspec.2 hnz).1 existing hbuf).2
        rw [hm, Nat.mul_one] at this
        simp only [hc] at this ⊢
        omega
  · have hfalse : st.can_accept_stack s = false := by simpa using hca
    simp only [hfalse, Bool.not_false, if_true]
    exact h

/-- Helper: inc_item_count always preserves the cap and multiplicity part
of the connection invariants. -/
theorem inc_item_count_preserves_capmult (st : ConnectionState) (t : ItemType) (n : Nat)
    (h : connCapMultB st = true) :
    connCapMultB (st.inc_item_count t n).2 = true := by
  unfold ConnectionState.inc_item_count
  rcases hbuf : st.buffer with _ | buffer
  · simp only [connCapMultB]
    simp only [Bool.and_eq_true, beq_iff_eq, decide_eq_true_eq]
    exact ⟨by simp, by omega⟩
  · unfold connCapMultB at h
    simp only [hbuf] at h
    simp only [Bool.and_eq_true, beq_iff_eq, decide_eq_true_eq] at h
    by_cases hty : (buffer.item_type != t) = true
    · simp only [hty, if_true]
      unfold connCapMultB
      simp only [hbuf]
      simp only [Bool.and_eq_true, beq_iff_eq, decide_eq_true_eq]
      exact h
    · simp only [hty, Bool.false_eq_true, if_false, connCapMultB]
      simp only [Bool.and_eq_true, beq_iff_eq, decide_eq_true_eq]
      exact ⟨h.1, by have := h.2; omega⟩

/-- Helper: inc_item_count preserves the full connection invariants when the
filter admits the incoming type. -/
theorem inc_item_count_preserves_inv (st : ConnectionState) (t : ItemType) (n : Nat)
    (h : connInvB st = true) (hf : st.filterAllows t = true) :
    connInvB (st.inc_item_count t n).2 = true := by
  unfold ConnectionState.inc_item_count
  rcases hbuf : st.buffer with _ | buffer
  · simp only
    exact connInvB_mk3 st.item_limit st.item_filter t (0 + min n (st.item_limit - 0)) 1
      rfl (by omega) hf
  · rcases connInvB_destruct st buffer h hbuf with ⟨h1, h2, h3⟩
    by_cases hty : (buffer.item_type != t) = true
    · simp only [hty, if_true]
      simpa [hbuf] using h
    · simp only [hty, Bool.false_eq_true, if_false]
      exact connInvB_mk3 st.item_limit st.item_filter _ _ _ h1 (by omega) h3

/-- Helper: dec_item_count preserves the connection invariants. -/
theorem dec_item_count_preserves_inv (st : ConnectionState) (n : Nat)
    (h : connInvB st = true) :
    connInvB (st.dec_item_count n).2 = true := by
  unfold ConnectionState.dec_item_count
  rcases hbuf : st.buffer with _ | buffer
  · simpa [hbuf] using h
  · rcases connInvB_destruct st buffer h hbuf with ⟨h1, h2, h3⟩
    by_cases hz : (buffer.item_count - min n buffer.item_count == 0) = true
    · simp only [hz, if_true]
      exact connInvB_none st.item_limit st.item_filter
    · simp only [hz, Bool.false_eq_true, if_false]
      exact connInvB_mk3 st.item_limit st.item_filter _ _ _ h1
        (le_trans (Nat.sub_le _ _) h2) h3

/-- Helper: take_next_output preserves the connection invariants. -/
theorem take_next_output_preserves_inv (c : BeltOutputConnection)
    (h : connInvB c.state = true) :
    connInvB (c.take_next_output).2.state = true := by
  unfold BeltOutputConnection.take_next_output
  rcases hbuf : c.state.buffer with _ | buffer
  · simpa [hbuf] using h
  · rcases connInvB_destruct c.state buffer h hbuf with ⟨h1, h2, h3⟩
    by_cases hz : (buffer.item_count == 0) = true
    · simp only [hz, if_true]
      simpa [hbuf] using h
    · simp only [hz, Bool.false_eq_true, if_false]
      by_cases hpos : buffer.item_count - min buffer.item_count c.output_stack_size > 0
      · rw [if_pos hpos]
        exact connInvB_mk3 c.state.item_limit c.state.item_filter _ _ _ rfl
          (le_trans (Nat.sub_le _ _) h2) h3
      · rw [if_neg hpos]
        exact connInvB_none c.state.item_limit c.state.item_filter

/-- Helper: take_output_batch preserves the connection invariants. -/
theorem take_output_batch_preserves_inv (c : BeltOutputConnection) (m : Nat)
    (h : connInvB c.state = true) :
    connInvB (c.take_output_batch m).2.state = true := by
  unfold BeltOutputConnection.take_output_batch
  by_cases hm : (m == 0) = true
  · simpa [hm] using h
  · simp only [hm, Bool.false_eq_true, if_false]
    rcases hbuf : c.state.buffer with _ | buffer
    · simpa [hbuf] using h
    · rcases connInvB_destruct c.state buffer h hbuf with ⟨h1, h2, h3⟩
      by_cases hz : (buffer.item_count == 0) = true
      · simp only [hz, if_true]
        simpa [hbuf] using h
      · simp only [hz, Bool.false_eq_true, if_false]
        repeat' split
        all_goals
          first
            | (simpa [hbuf] using h)
            | exact connInvB_none c.state.item_limit c.state.item_filter
            | exact connInvB_mk3 c.state.item_limit c.state.item_filter _ _ _ h1
                (le_trans (Nat.sub_le _ _) h2) h3

/-- C7 counterexample: the claim as stated fails in two independent ways.
First, inc_item_count never consults the item filter, so filling an empty
filtered connection with a disallowed type installs a buffer whose type is
outside the filter. Second, accept_stack on an empty buffer stores the
incoming stack together with its multiplicity: a certified multiplicity-2
stack is accepted and kept at multiplicity 2, violating the
single-multiplicity-1-entry invariant — and drain_to_output really hands
accept_stack stacks of multiplicity removable, which can exceed 1. -/
theorem c7_connection_invariant_breaches :
    (connInvB exC7state = true ∧
     (exC7state.inc_item_count 2 3).1 = 0 ∧
     connInvB (exC7state.inc_item_count 2 3).2 = false) ∧
    (connInvB (⟨10, none, none⟩ : ConnectionState) = true ∧
     (ConnectionState.accept_stack ⟨10, none, none⟩ ⟨1, 1, 2⟩).1 = true ∧
     (ConnectionState.accept_stack ⟨10, none, none⟩ ⟨1, 1, 2⟩).2.buffer = some ⟨1, 1, 2⟩ ∧
     connInvB (ConnectionState.accept_stack ⟨10, none, none⟩ ⟨1, 1, 2⟩).2 = false) := by
  refine ⟨⟨rfl, rfl, rfl⟩, rfl, rfl, rfl, rfl⟩

/-- C7 amended: accept_stack restricted to multiplicity-1 stacks,
dec_item_count, take_next_output and take_output_batch preserve all three
connection invariants (single multiplicity-1 buffer, count within
item_limit, filter-approved type); inc_item_count always preserves the
multiplicity and cap invariants, and preserves the filter invariant exactly
when the filter admits the incoming type. The restriction on accept_stack
is essential, not cosmetic: can_accept_stack certifies stacks of any
multiplicity, an empty buffer then stores the stack's own multiplicity, and
drain_to_output does call accept_stack with multiplicity above 1 — the
counterexample exhibits the resulting invariant breach. -/
theorem c7_connection_invariants_amended (st : ConnectionState)
    (h : connInvB st = true) :
    (∀ s : Stack, s.multiplicity = 1 → connInvB (st.accept_stack s).2 = true) ∧
    (∀ t n, connCapMultB (st.inc_item_count t n).2 = true) ∧
    (∀ t n, st.filterAllows t = true → connInvB (st.inc_item_count t n).2 = true) ∧
    (∀ n, connInvB (st.dec_item_count n).2 = true) ∧
    (∀ oss : Nat, connInvB ((BeltOutputConnection.mk st oss).take_next_output).2.state = true) ∧
    (∀ (oss m : Nat), connInvB ((BeltOutputConnection.mk st oss).take_output_batch m).2.state = true) := by
  refine ⟨fun s hm => accept_stack_preserves_inv st s h hm,
    fun t n => inc_item_count_preserves_capmult st t n ?_,
    fun t n hf => inc_item_count_preserves_inv st t n h hf,
    fun n => dec_item_count_preserves_inv st n h,
    fun oss => take_next_output_preserves_inv ⟨st, oss⟩ h,
    fun oss m => take_output_batch_preserves_inv ⟨st, oss⟩ m h⟩
  exact connCapMultB_of_inv st h

/-- Witness for the amended C7 at a concrete filtered connection holding
two items of type 1: accepting a multiplicity-1 stack of the approved type
and decrementing the count both keep the invariants. -/
theorem c7_connection_invariants_witness :
    connInvB (exC7witnessState.accept_stack ⟨1, 2, 1⟩).2 = true ∧
    connInvB (exC7witnessState.dec_item_count 1).2 = true :=
  ⟨(c7_connection_invariants_amended exC7witnessState rfl).1 ⟨1, 2, 1⟩ rfl,
   (c7_connection_invariants_amended exC7witnessState rfl).2.2.2.1 1⟩

/-- C8 counterexample: the claim says empty_space_front equals ITEM_WIDTH
after a successful remove_item. On a five-slot belt whose only stack sits
at the front, remove_item succeeds and leaves empty_space_front equal to
the whole belt length (640), not ITEM_WIDTH (128) — exactly the spec's own
scenario S1. -/
theorem c8_front_gap_not_item_width :
    (exC8belt.remove_item).1 = some ⟨42, 1, 1⟩ ∧
    (exC8belt.remove_item).2.empty_space_front = 5 * ITEM_WIDTH ∧
    5 * ITEM_WIDTH ≠ ITEM_WIDTH := by
  refine ⟨rfl, rfl, by decide⟩

/-- C8 amended: remove_item returns none exactly when a front gap exists or
the belt is empty; otherwise it emits the head entry's stack with
multiplicity 1, and: if the head entry survives (multiplicity ≥ 2 before),
its multiplicity drops by one and empty_space_front becomes ITEM_WIDTH;
if the entry is removed (multiplicity 1 before), the next entry is promoted
to group head with group_size − 1 and empty_space_front becomes the removed
entry's next_item_dist + ITEM_WIDTH, or the belt length when it was the
last entry. -/
theorem c8_remove_item_characterisation (b : Belt) :
    ((b.empty_space_front ≠ 0 ∨ b.items = []) → b.remove_item = (none, b)) ∧
    (∀ it rest, b.empty_space_front = 0 → b.items = it :: rest →
      (b.remove_item).1 = some { it.stack with multiplicity := 1 } ∧
      (2 ≤ it.stack.multiplicity →
        (b.remove_item).2 = { b with
          items := { it with stack := { it.stack with multiplicity := it.stack.multiplicity - 1 } } :: rest,
          empty_space_front := ITEM_WIDTH }) ∧
      (it.stack.multiplicity = 1 →
        (b.remove_item).2.empty_space_front =
          (match it.next_item_dist with
           | some offset => offset + ITEM_WIDTH
           | none => b.length) ∧
        (b.remove_item).2.items =
          (match rest with
           | [] => []
           | next :: tl =>
             (if it.group_size > 1 then
               { next with is_group_head := true, group_size := it.group_size - 1 }
              else next) :: tl))) := by
  constructor
  · intro hcase
    unfold Belt.remove_item
    rcases hcase with hfz | hi
    · rw [if_pos (Nat.pos_of_ne_zero hfz)]
    · rcases hfq : b.empty_space_front with _ | k
      · rw [if_neg (by omega)]
        rw [hi]
      · rw [if_pos (by omega)]
  · intro it rest hf hitems
    obtain ⟨len, spd, items, esf, esb, ic, oc⟩ := b
    simp only at hf hitems
    subst hitems
    subst hf
    unfold Belt.remove_item
    dsimp only
    rw [if_neg (by omega : ¬ (0 : Nat) > 0)]
    refine ⟨by split <;> rfl, ?_, ?_⟩
    · intro hmult
      rw [if_neg (by simp only [beq_iff_eq]; omega)]
    · intro hmult
      rw [if_pos (by simp only [beq_iff_eq]; omega)]
      unfold Belt.pop_front_entry
      constructor
      · rcases hd : it.next_item_dist with _ | d <;> simp [hd]
      · rcases rest with _ | ⟨next, tl⟩
        · simp only
          split <;> rfl
        · simp only
          by_cases hgs : it.group_size > 1
          · rw [if_pos hgs, if_pos hgs]
          · rw [if_neg hgs, if_neg hgs]

/-- Witness for the amended C8: on a belt whose head entry has multiplicity
2 at the front, remove_item emits one copy and leaves the decremented entry
behind an ITEM_WIDTH front gap. -/
theorem c8_remove_item_witness :
    (exC8witnessBelt.remove_item).1 = some ⟨7, 2, 1⟩ ∧
    (exC8witnessBelt.remove_item).2.empty_space_front = ITEM_WIDTH :=
  ⟨((c8_remove_item_characterisation exC8witnessBelt).2 ⟨⟨7, 2, 2⟩, none, true, true, 1⟩ []
      rfl rfl).1,
    by
      rw [((c8_remove_item_characterisation exC8witnessBelt).2 ⟨⟨7, 2, 2⟩, none, true, true, 1⟩ []
        rfl rfl).2.1 (by decide)]⟩

/-- Helper: a failed tryAssignRRGo leaves the cursor state untouched. -/
theorem tryAssignRRGo_failed (stack : Stack) (len : Nat) :
    ∀ iters offset st rr_outputs,
      (tryAssignRRGo stack len iters offset st rr_outputs).1 = false →
      (tryAssignRRGo stack len iters offset st rr_outputs).2.1 = st := by
  intro iters
  induction iters with
  | zero => intro offset st rr_outputs _; rfl
  | succ k ih =>
    intro offset st rr_outputs hfail
    unfold tryAssignRRGo at hfail ⊢
    by_cases hok : ((rr_outputs.getD ((st.output_rr_index + offset) % len) default).add_item
        (Stack.new stack.item_type stack.item_count)).1 = true
    · rw [if_pos hok] at hfail
      simp at hfail
    · rw [if_neg hok] at hfail ⊢
      exact ih (offset + 1) st rr_outputs hfail

/-- Helper: tryAssignRRGo never touches the input cursor, and on success
puts the output cursor in range. -/
theorem tryAssignRRGo_shape (stack : Stack) (len : Nat) (hlen : 0 < len) :
    ∀ iters offset st rr_outputs,
      (tryAssignRRGo stack len iters offset st rr_outputs).2.1.input_rr_index = st.input_rr_index ∧
      ((tryAssignRRGo stack len iters offset st rr_outputs).1 = true →
        (tryAssignRRGo stack len iters offset st rr_outputs).2.1.output_rr_index < len) := by
  intro iters
  induction iters with
  | zero =>
    intro offset st rr_outputs
    refine ⟨rfl, fun h => ?_⟩
    simp [tryAssignRRGo] at h
  | succ k ih =>
    intro offset st rr_outputs
    unfold tryAssignRRGo
    by_cases hok : ((rr_outputs.getD ((st.output_rr_index + offset) % len) default).add_item
        (Stack.new stack.item_type stack.item_count)).1 = true
    · rw [if_pos hok]
      exact ⟨rfl, fun _ => Nat.mod_lt _ hlen⟩
    · rw [if_neg hok]
      exact ih (offset + 1) st rr_outputs

/-- C9 counterexample: the claim says the cursors change only when an
add_item onto an output succeeds. One step of the rr drain at an empty
input belt places nothing, yet input_rr_index advances from 0 to 1. -/
theorem c9_input_cursor_advances_without_placement :
    (rrStep ⟨0, 0⟩ exC9inputs exC9outputs).1 = false ∧
    (rrStep ⟨0, 0⟩ exC9inputs exC9outputs).2.1.input_rr_index = 1 := by
  refine ⟨rfl, rfl⟩

/-- C9 amended: with both cursors in range, a step of the direct splitter's
rr drain advances input_rr_index by exactly one (mod the input count)
whether or not an item is placed; output_rr_index changes only when an
add_item onto an output belt succeeds, and both cursors stay in [0, len) of
their sets. Likewise try_assign_rr leaves the cursor state untouched when
no output accepts, and lands the output cursor in range when one does
(try_assign_priority takes no cursor at all). -/
theorem c9_cursor_discipline_amended (st : SplitterState) (stack : Stack)
    (rr_inputs rr_outputs : List Belt)
    (hin : st.input_rr_index < rr_inputs.length)
    (hout : st.output_rr_index < rr_outputs.length) :
    ((rrStep st rr_inputs rr_outputs).2.1.input_rr_index =
      (st.input_rr_index + 1) % rr_inputs.length) ∧
    ((rrStep st rr_inputs rr_outputs).1 = false →
      (rrStep st rr_inputs rr_outputs).2.1.output_rr_index = st.output_rr_index) ∧
    ((rrStep st rr_inputs rr_outputs).2.1.input_rr_index < rr_inputs.length) ∧
    ((rrStep st rr_inputs rr_outputs).2.1.output_rr_index < rr_outputs.length) ∧
    ((try_assign_rr st stack rr_outputs).1 = false →
      (try_assign_rr st stack rr_outputs).2.1 = st) ∧
    ((try_assign_rr st stack rr_outputs).1 = true →
      (try_assign_rr st stack rr_outputs).2.1.output_rr_index < rr_outputs.length) := by
  have hlenO : 0 < rr_outputs.length := Nat.lt_of_le_of_lt (Nat.zero_le _) hout
  have hlenI : 0 < rr_inputs.length := Nat.lt_of_le_of_lt (Nat.zero_le _) hin
  have hO : (rr_outputs.length == 0) = false := by
    simp only [beq_eq_false_iff_ne, ne_eq]
    omega
  have hge : ¬ (st.output_rr_index ≥ rr_outputs.length) := by omega
  have hnorm : ∀ s : Stack, (try_assign_rr st s rr_outputs).1 = false →
      (try_assign_rr st s rr_outputs).2.1 = st := by
    intro s hfail
    unfold try_assign_rr at hfail ⊢
    rw [if_neg (by simp [hO])] at hfail ⊢
    rw [if_neg hge] at hfail ⊢
    exact tryAssignRRGo_failed s rr_outputs.length _ 0 st rr_outputs hfail
  have hok : ∀ s : Stack, (try_assign_rr st s rr_outputs).1 = true →
      (try_assign_rr st s rr_outputs).2.1.output_rr_index < rr_outputs.length := by
    intro s hsucc
    unfold try_assign_rr at hsucc ⊢
    rw [if_neg (by simp [hO])] at hsucc ⊢
    rw [if_neg hge] at hsucc ⊢
    exact (tryAssignRRGo_shape s rr_outputs.length hlenO _ 0 st rr_outputs).2 hsucc
  have hkeep : ∀ s : Stack,
      (try_assign_rr st s rr_outputs).2.1.input_rr_index = st.input_rr_index := by
    intro s
    unfold try_assign_rr
    rw [if_neg (by simp [hO])]
    rw [if_neg hge]
    exact (tryAssignRRGo_shape s rr_outputs.length hlenO _ 0 st rr_outputs).1
  have hstay : ∀ s : Stack, (try_assign_rr st s rr_outputs).1 = false ∨
      (try_assign_rr st s rr_outputs).1 = true := by
    intro s
    rcases (try_assign_rr st s rr_outputs).1 with _ | _
    · exact Or.inl rfl
    · exact Or.inr rfl
  refine ⟨?_, ?_, ?_, ?_, hnorm stack, hok stack⟩
  · unfold rrStep
    dsimp only
    rcases hpeek : (rr_inputs.getD st.input_rr_index default).peek_front_stack with _ | ⟨s, d⟩
    · rfl
    · dsimp only
      rw [hkeep s]
  · intro hplaced
    unfold rrStep at hplaced ⊢
    dsimp only at hplaced ⊢
    rcases hpeek : (rr_inputs.getD st.input_rr_index default).peek_front_stack with _ | ⟨s, d⟩
    · rfl
    · rw [hpeek] at hplaced
      dsimp only at hplaced ⊢
      rw [hnorm s hplaced]
  · unfold rrStep
    dsimp only
    rcases hpeek : (rr_inputs.getD st.input_rr_index default).peek_front_stack with _ | ⟨s, d⟩
    · exact Nat.mod_lt _ hlenI
    · dsimp only
      exact Nat.mod_lt _ hlenI
  · unfold rrStep
    dsimp only
    rcases hpeek : (rr_inputs.getD st.input_rr_index default).peek_front_stack with _ | ⟨s, d⟩
    · exact hout
    · dsimp only
      rcases hstay s with hfail | hsucc
      · rw [hnorm s hfail]
        exact hout
      · exact hok s hsucc

/-- Witness for the amended C9 at the concrete configuration: the input
cursor advances by one modulo the input count. -/
theorem c9_cursor_discipline_witness :
    (rrStep ⟨0, 0⟩ exC9inputs exC9outputs).2.1.input_rr_index = (0 + 1) % exC9inputs.length :=
  (c9_cursor_discipline_amended ⟨0, 0⟩ ⟨3, 1, 1⟩ exC9inputs exC9outputs
    (by decide) (by decide)).1

/-- C4 counterexample: the claim says no Stack-equal adjacent pair at zero
gap survives any run, "in particular for entries appended from the input
connection in the fill phase". Running a belt whose tail entry equals the
full stack its input connection emits produces exactly such a pair: the
fill phase glues the appended entry at zero gap behind the equal tail
without fusing them. -/
theorem c4_fill_phase_fusable_pair :
    nfpB exC4belt.items = true ∧ nfpB ((exC4belt.run 0).items) = false := by
  refine ⟨rfl, rfl⟩

/-! Supporting lemmas for the amended fusion law: list index arithmetic,
the correspondence between the boolean and inductive well-formedness
predicates, and the chain structure of the rewrite performed by
advance_without_connections. -/

/-- getD at the length of the left append part. -/
theorem getD_append_len (P : List BeltItem) (x : BeltItem) (rest : List BeltItem)
    (d : BeltItem) : (P ++ x :: rest).getD P.length d = x := by
  induction P with
  | nil => rfl
  | cons p ps ih => simpa using ih

/-- getD past the left append part. -/
theorem getD_append_add (P rest : List BeltItem) (k : Nat) (d : BeltItem) :
    (P ++ rest).getD (P.length + k) d = rest.getD k d := by
  induction P with
  | nil => simp
  | cons p ps ih =>
    simpa [Nat.succ_add] using ih

/-- getD inside the left append part. -/
theorem getD_append_lt (P rest : List BeltItem) (i : Nat) (hi : i < P.length)
    (d : BeltItem) : (P ++ rest).getD i d = P.getD i d := by
  induction P generalizing i with
  | nil => simp at hi
  | cons p ps ih =>
    rcases i with _ | j
    · rfl
    · simpa using ih j (by simp at hi; omega)

/-- set at the length of the left append part. -/
theorem set_append_len (P : List BeltItem) (x y : BeltItem) (rest : List BeltItem) :
    (P ++ x :: rest).set P.length y = P ++ y :: rest := by
  induction P with
  | nil => rfl
  | cons p ps ih => simp [ih]

/-- eraseIdx at the length of the left append part. -/
theorem eraseIdx_append_len (P : List BeltItem) (x : BeltItem) (rest : List BeltItem) :
    (P ++ x :: rest).eraseIdx P.length = P ++ rest := by
  induction P with
  | nil => rfl
  | cons p ps ih => simpa using ih

/-- The head of an appended decomposition has the same group_size when its
possible head entry does. -/
theorem headI_group_size_congr (P : List BeltItem) (x y : BeltItem)
    (rest rest' : List BeltItem) (h : y.group_size = x.group_size) :
    (P ++ y :: rest').headI.group_size = (P ++ x :: rest).headI.group_size := by
  rcases P with _ | ⟨p, ps⟩
  · simpa using h
  · rfl

/-- nfpB is the boolean form of the chain predicate NFP. -/
theorem nfpB_iff : ∀ l : List BeltItem, nfpB l = true ↔ NFP l
  | [] => by simp [nfpB, NFP]
  | [_] => by simp [nfpB, NFP]
  | a :: b :: t => by
    have ih := nfpB_iff (b :: t)
    show (!(fusableB a b) && nfpB (b :: t)) = true ↔ NFP (a :: b :: t)
    rw [Bool.and_eq_true, ih]
    unfold NFP
    rw [List.chain'_cons]
    unfold noFuse
    simp

/-- Every nonempty well-formed list splits off its head block. -/
theorem WFB_split (l : List BeltItem) (h : WFB l) (hne : l ≠ []) :
    ∃ P bl rest, l = P ++ bl :: rest ∧ l.headI.group_size = P.length + 1 ∧
      (∀ a ∈ P, a.next_item_dist = some 0) ∧
      ((bl.next_item_dist = none ∧ rest = []) ∨
       (∃ d, bl.next_item_dist = some d ∧ rest ≠ [] ∧ WFB rest)) := by
  cases h with
  | nil => exact absurd rfl hne
  | last P bl hg hint hdist =>
    exact ⟨P, bl, [], rfl, hg, hint, Or.inl ⟨hdist, rfl⟩⟩
  | cons P bl d rest hg hint hdist hrne hr =>
    exact ⟨P, bl, rest, rfl, hg, hint, Or.inr ⟨d, hdist, hrne, hr⟩⟩

/-- Assembling a well-formed list from its head block. -/
theorem WFB_build (P : List BeltItem) (bl : BeltItem) (rest : List BeltItem)
    (hg : (P ++ bl :: rest).headI.group_size = P.length + 1)
    (hint : ∀ a ∈ P, a.next_item_dist = some 0)
    (hcase : (bl.next_item_dist = none ∧ rest = []) ∨
      (∃ d, bl.next_item_dist = some d ∧ rest ≠ [] ∧ WFB rest)) :
    WFB (P ++ bl :: rest) := by
  rcases hcase with ⟨hdist, hrest⟩ | ⟨d, hdist, hrne, hr⟩
  · subst hrest
    exact WFB.last P bl hg hint hdist
  · exact WFB.cons P bl d rest hg hint hdist hrne hr

/-- wfbAux does not depend on the fuel once it dominates the length. -/
theorem wfbAux_fuel : ∀ (f₁ : Nat) (f₂ : Nat) (l : List BeltItem),
    l.length ≤ f₁ → l.length ≤ f₂ → wfbAux f₁ l = wfbAux f₂ l := by
  intro f₁
  induction f₁ with
  | zero =>
    intro f₂ l h1 _
    rcases l with _ | ⟨hd, t⟩
    · cases f₂ <;> rfl
    · simp at h1
  | succ k ih =>
    intro f₂ l h1 h2
    rcases l with _ | ⟨hd, t⟩
    · cases f₂ <;> rfl
    · rcases f₂ with _ | k₂
      · simp at h2
      · show wfbAux (k + 1) (hd :: t) = wfbAux (k₂ + 1) (hd :: t)
        unfold wfbAux
        dsimp only
        by_cases hg : 1 ≤ hd.group_size
        · rcases hdist : (((hd :: t)).getD (hd.group_size - 1) default).next_item_dist with _ | d
          · rfl
          · have hlen : ((hd :: t).drop hd.group_size).length ≤ k := by
              simp only [List.length_drop, List.length_cons]
              simp only [List.length_cons] at h1
              omega
            have hlen₂ : ((hd :: t).drop hd.group_size).length ≤ k₂ := by
              simp only [List.length_drop, List.length_cons]
              simp only [List.length_cons] at h2
              omega
            simp only [ih k₂ ((hd :: t).drop hd.group_size) hlen hlen₂]
        · have hz : (decide (1 ≤ hd.group_size)) = false := by simpa using hg
          rw [hz]
          simp

/-- Eliminating one step of wfbAux at a cons cell. -/
theorem wfbAux_cons_elim (k : Nat) (hd : BeltItem) (t : List BeltItem)
    (h : wfbAux (k + 1) (hd :: t) = true) :
    1 ≤ hd.group_size ∧ hd.group_size ≤ t.length + 1 ∧
    (∀ a ∈ (hd :: t).take (hd.group_size - 1), a.next_item_dist = some 0) ∧
    (((hd :: t).getD (hd.group_size - 1) default).next_item_dist = none →
      hd.group_size = t.length + 1) ∧
    (∀ d, ((hd :: t).getD (hd.group_size - 1) default).next_item_dist = some d →
      hd.group_size < t.length + 1 ∧ wfbAux k ((hd :: t).drop hd.group_size) = true) := by
  unfold wfbAux at h
  dsimp only at h
  rcases hdist : (((hd :: t)).getD (hd.group_size - 1) default).next_item_dist with _ | d
  · rw [hdist] at h
    simp only [Bool.and_eq_true, decide_eq_true_eq, List.all_eq_true, beq_iff_eq,
      List.length_cons] at h
    refine ⟨h.1.1.1, h.1.1.2, fun a ha => h.1.2 a ha, fun _ => h.2, ?_⟩
    intro d hd'
    exact Option.noConfusion hd'
  · rw [hdist] at h
    simp only [Bool.and_eq_true, decide_eq_true_eq, List.all_eq_true, beq_iff_eq,
      List.length_cons] at h
    refine ⟨h.1.1.1, h.1.1.2, fun a ha => h.1.2 a ha, ?_, ?_⟩
    · intro hnone
      exact Option.noConfusion hnone
    · intro d' hd'
      cases hd'
      exact ⟨h.2.1, h.2.2⟩

/-- A list decomposes around any in-range index. -/
theorem list_decomp (l : List BeltItem) (i : Nat) (hi : i < l.length) :
    l = l.take i ++ l.getD i default :: l.drop (i + 1) := by
  rw [List.getD_eq_getElem l default hi]
  rw [← List.drop_eq_getElem_cons hi]
  rw [List.take_append_drop]

/-- The boolean well-formedness check certifies the inductive predicate. -/
theorem wfb_to_WFB : ∀ (n : Nat) (l : List BeltItem), l.length ≤ n → wfb l = true → WFB l := by
  intro n
  induction n with
  | zero =>
    intro l hl _
    rcases l with _ | ⟨hd, t⟩
    · exact WFB.nil
    · simp at hl
  | succ k ih =>
    intro l hl h
    rcases l with _ | ⟨hd, t⟩
    · exact WFB.nil
    · unfold wfb at h
      have helim := wfbAux_cons_elim t.length hd t (by simpa using h)
      rcases helim with ⟨hg1, hg2, hint, hnone, hsome⟩
      have hidx : hd.group_size - 1 < (hd :: t).length := by
        simp only [List.length_cons]
        omega
      have hdec := list_decomp (hd :: t) (hd.group_size - 1) hidx
      have hsub : hd.group_size - 1 + 1 = hd.group_size := by omega
      have htklen : ((hd :: t).take (hd.group_size - 1)).length = hd.group_size - 1 := by
        rw [List.length_take]
        simp only [List.length_cons]
        omega
      rcases hdist : (((hd :: t)).getD (hd.group_size - 1) default).next_item_dist with _ | d
      · have hglen := hnone hdist
        rw [hsub] at hdec
        rw [hdec]
        refine WFB_build _ _ _ ?_ hint (Or.inl ⟨hdist, ?_⟩)
        · rw [← hdec]
          simp only [List.headI, htklen]
          omega
        · rw [List.drop_eq_nil_iff]
          simp only [List.length_cons]
          omega
      · rcases hsome d hdist with ⟨hlt, hrest⟩
        rw [hsub] at hdec
        rw [hdec]
        refine WFB_build _ _ _ ?_ hint (Or.inr ⟨d, hdist, ?_, ?_⟩)
        · rw [← hdec]
          simp only [List.headI, htklen]
          omega
        · intro hnil
          rw [List.drop_eq_nil_iff] at hnil
          simp only [List.length_cons] at hnil
          omega
        · refine ih ((hd :: t).drop hd.group_size) ?_ ?_
          · simp only [List.length_drop, List.length_cons]
            simp only [List.length_cons] at hl
            omega
          · unfold wfb
            rw [wfbAux_fuel ((hd :: t).drop hd.group_size).length t.length _ (le_refl _) ?_]
            · exact hrest
            · simp only [List.length_drop, List.length_cons]
              omega

/-- fusableB reads from its left argument only the stack type/count and the
distance. -/
theorem fusableB_congr_left (x x' y : BeltItem)
    (ht : x'.stack.item_type = x.stack.item_type)
    (hc : x'.stack.item_count = x.stack.item_count)
    (hd : x'.next_item_dist = x.next_item_dist) :
    fusableB x' y = fusableB x y := by
  unfold fusableB stackEq
  rw [ht, hc, hd]

/-- fusableB reads from its right argument only the stack type/count. -/
theorem fusableB_congr_right (x y y' : BeltItem)
    (ht : y'.stack.item_type = y.stack.item_type)
    (hc : y'.stack.item_count = y.stack.item_count) :
    fusableB x y' = fusableB x y := by
  unfold fusableB stackEq
  rw [ht, hc]

/-- A Stack-equal left operand can be exchanged in stackEq. -/
theorem stackEq_shift_left (a b c : Stack) (h : stackEq a b = true) :
    stackEq a c = stackEq b c := by
  unfold stackEq at h ⊢
  simp only [Bool.and_eq_true, beq_iff_eq] at h
  rw [h.1, h.2]

/-- A Stack-equal right operand can be exchanged in stackEq. -/
theorem stackEq_shift_right (a b c : Stack) (h : stackEq b c = true) :
    stackEq a b = stackEq a c := by
  unfold stackEq at h ⊢
  simp only [Bool.and_eq_true, beq_iff_eq] at h
  rw [h.1, h.2]

/-- Changing only a stack's multiplicity keeps it Stack-equal. -/
theorem stackEq_mult (s : Stack) (m : Nat) :
    stackEq { s with multiplicity := m } s = true := by
  simp [stackEq]

/-- Unequal stacks can never fuse, whatever the gap. -/
theorem noFuse_of_stackNe (x y : BeltItem) (h : stackEq x.stack y.stack = false) :
    noFuse x y := by
  unfold noFuse fusableB
  rw [h]
  simp

/-- At gap zero the fusion law forces distinct stacks. -/
theorem stackNe_of_noFuse (x y : BeltItem) (h : noFuse x y)
    (hz : x.next_item_dist = some 0) : stackEq x.stack y.stack = false := by
  unfold noFuse fusableB at h
  rw [hz] at h
  simpa using h

/-- Pairwise-distinct adjacent stacks imply the fusion law. -/
theorem NFP_of_SCs (l : List BeltItem) (h : SCs (l.map BeltItem.stack)) : NFP l := by
  unfold SCs at h
  rw [List.chain'_map] at h
  exact h.imp (fun a b hab => noFuse_of_stackNe a b hab)

/-- On a list whose non-final entries all sit at gap zero, the fusion law
forces pairwise-distinct adjacent stacks. -/
theorem SCs_of_NFP : ∀ l : List BeltItem, NFP l →
    (∀ a ∈ l.dropLast, a.next_item_dist = some 0) → SCs (l.map BeltItem.stack)
  | [] => fun _ _ => List.chain'_nil
  | [a] => fun _ _ => List.chain'_singleton a.stack
  | a :: b :: t => fun h hz => by
    unfold NFP at h
    rw [List.chain'_cons] at h
    have hza : a.next_item_dist = some 0 := hz a (List.mem_cons_self _ _)
    have tail := SCs_of_NFP (b :: t) h.2 (fun x hx => hz x (List.mem_cons_of_mem a hx))
    unfold SCs at tail ⊢
    simp only [List.map_cons] at tail ⊢
    rw [List.chain'_cons]
    exact ⟨stackNe_of_noFuse a b h.1 hza, tail⟩

/-- Gluing stack chains across a shared distinct boundary. -/
theorem SCs_append (s₁ : List Stack) (σ : Stack) (s₂ : List Stack)
    (h1 : SCs (s₁ ++ [σ])) (h2 : SCs s₂)
    (hb : ∀ τ ∈ s₂.head?, stackEq σ τ = false) :
    SCs (s₁ ++ σ :: s₂) := by
  unfold SCs at h1 h2 ⊢
  rw [List.chain'_append] at h1 ⊢
  refine ⟨h1.1, ?_, ?_⟩
  · rw [List.chain'_cons']
    exact ⟨hb, h2⟩
  · intro x hx y hy
    simp only [List.head?_cons, Option.mem_def, Option.some_inj] at hy
    subst hy
    exact h1.2.2 x hx σ (by simp)

/-- Replacing the final stack of a chain by a Stack-equal one. -/
theorem SCs_last_congr (s : List Stack) (σ σ₂ : Stack) (h : stackEq σ₂ σ = true)
    (hS : SCs (s ++ [σ])) : SCs (s ++ [σ₂]) := by
  unfold SCs at hS ⊢
  rw [List.chain'_append] at hS ⊢
  refine ⟨hS.1, List.chain'_singleton _, ?_⟩
  intro x hx y hy
  simp only [List.head?_cons, Option.mem_def, Option.some_inj] at hy
  subst hy
  have := hS.2.2 x hx σ (by simp)
  unfold stackNe at this ⊢
  rw [stackEq_shift_right x σ₂ σ h]
  exact this

/-- getD at index zero of a nonempty list is its head. -/
theorem getD_zero_headI (l : List BeltItem) (h : l ≠ []) (d : BeltItem) :
    l.getD 0 d = l.headI := by
  cases l with
  | nil => exact absurd rfl h
  | cons a t => rfl

/-- rewriteFrom leaves entries past the rewritten range untouched. -/
theorem rewriteFrom_append (gs : Nat) (td : Option Nat) :
    ∀ (R rest : List BeltItem) (idx last : Nat), idx + R.length = last + 1 →
      Belt.rewriteFrom idx last gs td (R ++ rest) = Belt.rewriteFrom idx last gs td R ++ rest
  | [], rest, idx, last => fun h => by
    cases rest with
    | nil => rfl
    | cons r t =>
      show Belt.rewriteFrom idx last gs td (r :: t) = Belt.rewriteFrom idx last gs td [] ++ r :: t
      unfold Belt.rewriteFrom
      rw [if_neg (by simp at h; omega)]
      rfl
  | r :: R₁, rest, idx, last => fun h => by
    have hc : idx ≤ last := by simp at h; omega
    show Belt.rewriteFrom idx last gs td (r :: (R₁ ++ rest)) =
      Belt.rewriteFrom idx last gs td (r :: R₁) ++ rest
    unfold Belt.rewriteFrom
    rw [if_pos hc, if_pos hc]
    rw [rewriteFrom_append gs td R₁ rest (idx + 1) last (by simp at h ⊢; omega)]
    rfl

/-- The exact shape of a fully rewritten range: internal entries at gap zero
with the installed group size, the final entry carrying the tail distance,
lengths and stacks preserved. -/
theorem rewriteFrom_exact (gs : Nat) (td : Option Nat) :
    ∀ (R₀ : List BeltItem) (rl : BeltItem) (idx last : Nat), last = idx + R₀.length →
    ∃ (R₂ : List BeltItem) (rl₂ : BeltItem),
      Belt.rewriteFrom idx last gs td (R₀ ++ [rl]) = R₂ ++ [rl₂] ∧
      R₂.length = R₀.length ∧
      R₂.map BeltItem.stack = R₀.map BeltItem.stack ∧
      (∀ a ∈ R₂, a.next_item_dist = some 0) ∧
      (∀ a ∈ R₂, a.group_size = gs) ∧
      rl₂.stack = rl.stack ∧ rl₂.next_item_dist = td ∧ rl₂.group_size = gs
  | [], rl, idx, last => fun h => by
    refine ⟨[],
      { rl with
          group_size := gs, is_group_head := idx == 0, is_group_tail := idx == last,
          next_item_dist := if idx < last then some 0 else td },
      ?_, rfl, rfl, by simp, by simp, rfl, ?_, rfl⟩
    · show Belt.rewriteFrom idx last gs td [rl] = _
      unfold Belt.rewriteFrom
      rw [if_pos (by simp at h; omega)]
      rfl
    · show (if idx < last then some 0 else td) = td
      rw [if_neg (by simp at h; omega)]
  | q :: R₀, rl, idx, last => fun h => by
    obtain ⟨R₂, rl₂, heq, hlen, hmap, hdist, hgs, hs, hd, hg⟩ :=
      rewriteFrom_exact gs td R₀ rl (idx + 1) last (by simp at h ⊢; omega)
    refine ⟨{ q with
          group_size := gs, is_group_head := idx == 0, is_group_tail := idx == last,
          next_item_dist := if idx < last then some 0 else td } :: R₂,
      rl₂, ?_, ?_, ?_, ?_, ?_, hs, hd, hg⟩
    · show Belt.rewriteFrom idx last gs td (q :: (R₀ ++ [rl])) = _
      unfold Belt.rewriteFrom
      rw [if_pos (by simp at h; omega)]
      rw [heq]
      rfl
    · simp [hlen]
    · simp [hmap]
    · intro a ha
      rcases List.mem_cons.mp ha with rfl | ha₂
      · show (if idx < last then some 0 else td) = some 0
        rw [if_pos (by simp at h; omega)]
      · exact hdist a ha₂
    · intro a ha
      rcases List.mem_cons.mp ha with rfl | ha₂
      · rfl
      · exact hgs a ha₂

/-- Replacing the head entry by one with the same group size and distance
preserves the group structure. -/
theorem WFB_head_replace (x x₂ : BeltItem) (t : List BeltItem)
    (hg : x₂.group_size = x.group_size) (hd : x₂.next_item_dist = x.next_item_dist)
    (h : WFB (x :: t)) : WFB (x₂ :: t) := by
  obtain ⟨P, bl, rest₂, hdec, hhead, hint, hcase⟩ := WFB_split (x :: t) h (by simp)
  rcases P with _ | ⟨p, P₁⟩
  · simp only [List.nil_append] at hdec
    injection hdec with h1 h2
    subst h1
    subst h2
    refine WFB_build [] x₂ t ?_ (by simp) ?_
    · show x₂.group_size = ([] : List BeltItem).length + 1
      rw [hg]
      simpa using hhead
    · rcases hcase with ⟨hnone, hrest⟩ | ⟨d, hsome, hne, hwr⟩
      · exact Or.inl ⟨by rw [hd]; exact hnone, hrest⟩
      · exact Or.inr ⟨d, by rw [hd]; exact hsome, hne, hwr⟩
  · simp only [List.cons_append] at hdec
    injection hdec with h1 h2
    subst h1
    subst h2
    refine WFB_build (x₂ :: P₁) bl rest₂ ?_ ?_ hcase
    · show x₂.group_size = (x₂ :: P₁).length + 1
      rw [hg]
      simp only [List.headI, List.length_cons] at hhead ⊢
      omega
    · intro a ha
      rcases List.mem_cons.mp ha with rfl | ha₂
      · rw [hd]
        exact hint x (List.mem_cons_self _ _)
      · exact hint a (List.mem_cons_of_mem _ ha₂)

/-- Replacing the head entry by one with the same stack type/count and
distance preserves the fusion law. -/
theorem NFP_head_replace (x x₂ : BeltItem) (t : List BeltItem)
    (ht : x₂.stack.item_type = x.stack.item_type)
    (hc : x₂.stack.item_count = x.stack.item_count)
    (hd : x₂.next_item_dist = x.next_item_dist)
    (h : NFP (x :: t)) : NFP (x₂ :: t) := by
  unfold NFP at h ⊢
  rw [List.chain'_cons'] at h ⊢
  refine ⟨?_, h.2⟩
  intro y hy
  have hxy := h.1 y hy
  unfold noFuse at hxy ⊢
  rw [fusableB_congr_left x x₂ y ht hc hd]
  exact hxy

/-- Replacing a mid-list entry by one with the same stack type/count that
cannot fuse forward preserves the fusion law. -/
theorem NFP_mid_replace (P : List BeltItem) (x y : BeltItem) (rest : List BeltItem)
    (ht : y.stack.item_type = x.stack.item_type)
    (hc : y.stack.item_count = x.stack.item_count)
    (hz : ∀ h₁ ∈ rest.head?, fusableB y h₁ = false)
    (hn : NFP (P ++ x :: rest)) : NFP (P ++ y :: rest) := by
  unfold NFP at hn ⊢
  rw [List.chain'_append] at hn ⊢
  obtain ⟨h1, h2, h3⟩ := hn
  refine ⟨h1, ?_, ?_⟩
  · rw [List.chain'_cons'] at h2 ⊢
    refine ⟨?_, h2.2⟩
    intro z hz₂
    unfold noFuse
    rw [hz z hz₂]
    simp
  · intro a ha b hb
    simp only [List.head?_cons, Option.mem_def, Option.some_inj] at hb
    subst hb
    have hax := h3 a ha x (by simp)
    unfold noFuse at hax ⊢
    rw [fusableB_congr_right a x y ht hc]
    exact hax

/-- The head-entry removal of Belt::pop_front_entry preserves the group
structure and the fusion law of the remaining entries. -/
theorem WFB_NFP_pop (x : BeltItem) (t : List BeltItem) (hw : WFB (x :: t)) (hn : NFP (x :: t)) :
    WFB (if x.group_size > 1 then
          match t with
          | next :: tl => { next with is_group_head := true, group_size := x.group_size - 1 } :: tl
          | [] => []
        else t) ∧
    NFP (if x.group_size > 1 then
          match t with
          | next :: tl => { next with is_group_head := true, group_size := x.group_size - 1 } :: tl
          | [] => []
        else t) := by
  obtain ⟨P, bl, rest₂, hdec, hhead, hint, hcase⟩ := WFB_split (x :: t) hw (by simp)
  rcases P with _ | ⟨p, P₁⟩
  · simp only [List.nil_append] at hdec
    injection hdec with h1 h2
    subst h1
    subst h2
    have hg1 : x.group_size = 1 := by simpa using hhead
    rw [if_neg (by omega)]
    constructor
    · rcases hcase with ⟨hnone, hrest⟩ | ⟨d, hsome, hne, hwr⟩
      · subst hrest
        exact WFB.nil
      · exact hwr
    · exact List.Chain'.tail hn
  · simp only [List.cons_append] at hdec
    injection hdec with h1 h2
    subst h1
    subst h2
    have hg : x.group_size = P₁.length + 2 := by
      simp only [List.headI, List.length_cons] at hhead
      omega
    rw [if_pos (by omega)]
    rcases P₁ with _ | ⟨p₁, P₂⟩
    · simp only [List.nil_append]
      constructor
      · refine WFB_build []
          { bl with is_group_head := true, group_size := x.group_size - 1 } rest₂ ?_ (by simp) ?_
        · show x.group_size - 1 = ([] : List BeltItem).length + 1
          simp only [List.length_nil] at hg ⊢
          omega
        · rcases hcase with ⟨hnone, hrest⟩ | ⟨d, hsome, hne, hwr⟩
          · exact Or.inl ⟨hnone, hrest⟩
          · exact Or.inr ⟨d, hsome, hne, hwr⟩
      · exact NFP_head_replace bl
          { bl with is_group_head := true, group_size := x.group_size - 1 } rest₂
          rfl rfl rfl (List.Chain'.tail hn)
    · constructor
      · refine WFB_build
          ({ p₁ with is_group_head := true, group_size := x.group_size - 1 } :: P₂)
          bl rest₂ ?_ ?_ hcase
        · show x.group_size - 1 = P₂.length + 1 + 1
          simp only [List.length_cons] at hg
          omega
        · intro a ha
          rcases List.mem_cons.mp ha with rfl | ha₂
          · show p₁.next_item_dist = some 0
            exact hint p₁ (List.mem_cons_of_mem _ (List.mem_cons_self _ _))
          · exact hint a (List.mem_cons_of_mem _ (List.mem_cons_of_mem _ ha₂))
      · exact NFP_head_replace p₁
          { p₁ with is_group_head := true, group_size := x.group_size - 1 }
          (P₂ ++ bl :: rest₂) rfl rfl rfl (List.Chain'.tail hn)

/-- Rewriting an exactly-covered block prefix with the carried tail distance
rebuilds a well-formed list satisfying the fusion law, provided the new
block's stacks are pairwise distinct and its last entry cannot fuse into the
remainder. -/
theorem rewrite_assemble (gs₂ li : Nat) (td : Option Nat) (A : List BeltItem) (z : BeltItem)
    (rest L : List BeltItem)
    (hL : L = (A ++ [z]) ++ rest)
    (hli : li = A.length)
    (hgs : gs₂ = A.length + 1)
    (hS : SCs ((A ++ [z]).map BeltItem.stack))
    (hrest : List.Chain' noFuse rest)
    (hbound : ∀ h₁ ∈ rest.head?, (stackEq z.stack h₁.stack && (td == some 0)) = false)
    (hcase : (td = none ∧ rest = []) ∨ (∃ d, td = some d ∧ rest ≠ [] ∧ WFB rest)) :
    WFB (Belt.rewriteFrom 0 li gs₂ td L) ∧
    NFP (Belt.rewriteFrom 0 li gs₂ td L) := by
  subst hL
  subst hli
  obtain ⟨R₂, rl₂, heq, hlen, hmap, hdist, hgsR, hsz, hdz, hgz⟩ :=
    rewriteFrom_exact gs₂ td A z 0 A.length (by omega)
  rw [rewriteFrom_append gs₂ td (A ++ [z]) rest 0 A.length (by simp)]
  rw [heq]
  constructor
  · have hshape : (R₂ ++ [rl₂]) ++ rest = R₂ ++ rl₂ :: rest := by simp
    rw [hshape]
    refine WFB_build R₂ rl₂ rest ?_ hdist ?_
    · rcases R₂ with _ | ⟨r₀, R₃⟩
      · show rl₂.group_size = ([] : List BeltItem).length + 1
        rw [hgz, hgs]
        simp only [List.length_nil] at hlen ⊢
        omega
      · show r₀.group_size = (r₀ :: R₃).length + 1
        rw [hgsR r₀ (List.mem_cons_self _ _), hgs]
        simp only [List.length_cons] at hlen ⊢
        omega
    · rcases hcase with ⟨hnone, hrnil⟩ | ⟨d, hsome, hne, hwr⟩
      · exact Or.inl ⟨by rw [hdz]; exact hnone, hrnil⟩
      · exact Or.inr ⟨d, by rw [hdz]; exact hsome, hne, hwr⟩
  · unfold NFP
    rw [List.chain'_append]
    refine ⟨?_, hrest, ?_⟩
    · have hmap₂ : (R₂ ++ [rl₂]).map BeltItem.stack = (A ++ [z]).map BeltItem.stack := by
        simp [hmap, hsz]
      exact NFP_of_SCs (R₂ ++ [rl₂]) (by unfold SCs; rw [hmap₂]; exact hS)
    · intro a ha b hb
      rw [List.getLast?_concat] at ha
      simp only [Option.mem_def, Option.some_inj] at ha
      subst ha
      have hf := hbound b hb
      unfold noFuse fusableB
      rw [hsz, hdz, hf]
      simp

/-- eraseIdx one past the left append part removes the second element. -/
theorem eraseIdx_append_len_succ (P : List BeltItem) (x y : BeltItem) (rest : List BeltItem) :
    (P ++ x :: y :: rest).eraseIdx (P.length + 1) = P ++ x :: rest := by
  induction P with
  | nil => rfl
  | cons p ps ih => simpa using ih

/-- A non-fusable pair evaluates fusableB to false. -/
theorem noFuse_false (x y : BeltItem) (h : noFuse x y) : fusableB x y = false := by
  unfold noFuse at h
  cases hb : fusableB x y
  · rfl
  · exact absurd hb h

/-- The merge loop of advance_without_connections preserves the group
structure and the fusion law of the belt entries. -/
theorem advanceLoop_preserves : ∀ (fuel : Nat) (items : List BeltItem) (dist back : Nat),
    WFB items → NFP items →
    WFB (Belt.advanceLoop fuel items dist back).1 ∧
    NFP (Belt.advanceLoop fuel items dist back).1 := by
  intro fuel
  induction fuel with
  | zero =>
    intro items dist back hw hn
    exact ⟨hw, hn⟩
  | succ k ih =>
    intro items dist back hw hn
    by_cases hstop : (dist == 0 || items.isEmpty) = true
    · show WFB (Belt.advanceLoop (k + 1) items dist back).1 ∧
        NFP (Belt.advanceLoop (k + 1) items dist back).1
      unfold Belt.advanceLoop
      rw [if_pos hstop]
      exact ⟨hw, hn⟩
    · have hne : items ≠ [] := by
        intro hnil
        subst hnil
        simp at hstop
      obtain ⟨P, bl, rest₂, hdec, hhead, hint, hcase⟩ := WFB_split items hw hne
      subst hdec
      show WFB (Belt.advanceLoop (k + 1) (P ++ bl :: rest₂) dist back).1 ∧
        NFP (Belt.advanceLoop (k + 1) (P ++ bl :: rest₂) dist back).1
      unfold Belt.advanceLoop
      rw [if_neg hstop]
      dsimp only
      rw [hhead, Nat.add_sub_cancel, getD_append_len P bl rest₂ default]
      rcases hcase with ⟨hbnone, hrnil⟩ | ⟨d, hbsome, hne₂, hw₂⟩
      · rw [hbnone]
        exact ⟨hw, hn⟩
      · rw [hbsome]
        dsimp only
        by_cases hgt : d > dist
        · rw [if_pos hgt, set_append_len]
          have hzf : ∀ h₁ ∈ rest₂.head?,
              fusableB { bl with next_item_dist := some (d - dist) } h₁ = false := by
            intro h₁ _
            unfold fusableB
            have hfd : ((some (d - dist) : Option Nat) == some 0) = false := by
              rw [beq_eq_false_iff_ne]
              intro hcontra
              simp only [Option.some.injEq] at hcontra
              omega
            show (stackEq bl.stack h₁.stack && ((some (d - dist) : Option Nat) == some 0)) = false
            rw [hfd, Bool.and_false]
          constructor
          · refine WFB_build P _ rest₂ ?_ hint (Or.inr ⟨d - dist, rfl, hne₂, hw₂⟩)
            rw [headI_group_size_congr P bl { bl with next_item_dist := some (d - dist) }
              rest₂ rest₂ rfl]
            exact hhead
          · exact NFP_mid_replace P bl { bl with next_item_dist := some (d - dist) } rest₂
              rfl rfl hzf hn
        · rw [if_neg hgt]
          by_cases hbig : P.length + 1 ≥ (P ++ bl :: rest₂).length
          · exfalso
            have hlp : 0 < rest₂.length := List.length_pos.mpr hne₂
            simp only [List.length_append, List.length_cons] at hbig
            omega
          · rw [if_neg hbig]
            rw [getD_append_add P (bl :: rest₂) 1 default, List.getD_cons_succ]
            obtain ⟨P₂, bl₂, rest₃, hdec₂, hhead₂, hint₂, hcase₂⟩ := WFB_split rest₂ hw₂ hne₂
            subst hdec₂
            rw [getD_zero_headI (P₂ ++ bl₂ :: rest₃) hne₂ default, hhead₂]
            rw [show P.length + 1 + (P₂.length + 1) - 1 = P.length + (P₂.length + 1) from
              by omega]
            rw [getD_append_add P (bl :: (P₂ ++ bl₂ :: rest₃)) (P₂.length + 1) default,
              List.getD_cons_succ, getD_append_len P₂ bl₂ rest₃ default]
            have hPbl : List.Chain' noFuse (P ++ [bl]) := by
              have hn₄ : List.Chain' noFuse ((P ++ [bl]) ++ (P₂ ++ bl₂ :: rest₃)) := by
                rw [show (P ++ [bl]) ++ (P₂ ++ bl₂ :: rest₃) = P ++ bl :: (P₂ ++ bl₂ :: rest₃)
                  from by simp]
                exact hn
              exact (List.chain'_append.mp hn₄).1
            have hSP : SCs (P.map BeltItem.stack ++ [bl.stack]) := by
              have hres := SCs_of_NFP (P ++ [bl]) hPbl
                (by rw [List.dropLast_concat]; exact hint)
              simpa using hres
            have hinner3 : List.Chain' noFuse ((P₂ ++ [bl₂]) ++ rest₃) := by
              have hsuf : (P₂ ++ bl₂ :: rest₃) <:+ (P ++ bl :: (P₂ ++ bl₂ :: rest₃)) := by
                rw [show P ++ bl :: (P₂ ++ bl₂ :: rest₃) =
                  (P ++ [bl]) ++ (P₂ ++ bl₂ :: rest₃) from by simp]
                exact List.suffix_append _ _
              have hsc := List.Chain'.suffix hn hsuf
              rw [show (P₂ ++ [bl₂]) ++ rest₃ = P₂ ++ bl₂ :: rest₃ from by simp]
              exact hsc
            have hP₂ := List.chain'_append.mp hinner3
            have hb₂ : ∀ y ∈ rest₃.head?, noFuse bl₂ y := by
              intro y hy
              exact hP₂.2.2 bl₂ (by rw [List.getLast?_concat]; simp) y hy
            have hbound₂ : ∀ y ∈ rest₃.head?,
                (stackEq bl₂.stack y.stack && ((bl₂.next_item_dist == some 0) : Bool)) = false :=
              fun y hy => noFuse_false bl₂ y (hb₂ y hy)
            have hS₂ : SCs ((P₂ ++ [bl₂]).map BeltItem.stack) :=
              SCs_of_NFP (P₂ ++ [bl₂]) hP₂.1 (by rw [List.dropLast_concat]; exact hint₂)
            have hchainrest : List.Chain' noFuse rest₃ := hP₂.2.1
            by_cases hm : stackEq bl.stack ((P₂ ++ bl₂ :: rest₃).headI).stack = true
            · rw [if_pos hm, set_append_len]
              rcases P₂ with _ | ⟨q, Q⟩
              · simp only [List.nil_append, List.length_nil, List.headI_cons] at hm hn hne₂ ⊢
                rw [if_pos (show ((0 + 1 - 1 : Nat) == 0) = true from rfl)]
                rw [eraseIdx_append_len_succ]
                unfold Belt.rewriteRange
                have hm₂ : stackEq bl.stack bl₂.stack = true := hm
                have hSM : SCs ((P ++ [{ bl with stack := { bl.stack with
                    multiplicity := bl.stack.multiplicity + bl₂.stack.multiplicity } }]).map
                    BeltItem.stack) := by
                  have hmapeq : ((P ++ [{ bl with stack := { bl.stack with
                      multiplicity := bl.stack.multiplicity + bl₂.stack.multiplicity } }]).map
                      BeltItem.stack) = P.map BeltItem.stack ++ [{ bl.stack with
                      multiplicity := bl.stack.multiplicity + bl₂.stack.multiplicity }] := by
                    simp
                  rw [hmapeq]
                  exact SCs_last_congr _ bl.stack _ (stackEq_mult bl.stack _) hSP
                have hbound₁ : ∀ y ∈ rest₃.head?,
                    (stackEq ({ bl with stack := { bl.stack with
                      multiplicity := bl.stack.multiplicity + bl₂.stack.multiplicity } } :
                      BeltItem).stack y.stack &&
                     ((bl₂.next_item_dist == some 0) : Bool)) = false := by
                  intro y hy
                  have hfb := hbound₂ y hy
                  rw [stackEq_shift_left ({ bl with stack := { bl.stack with
                      multiplicity := bl.stack.multiplicity + bl₂.stack.multiplicity } } :
                      BeltItem).stack bl.stack y.stack (stackEq_mult bl.stack _),
                    stackEq_shift_left bl.stack bl₂.stack y.stack hm₂]
                  exact hfb
                refine ih _ _ _ ?_ ?_
                · exact (rewrite_assemble _ _ _ P
                    { bl with stack := { bl.stack with
                      multiplicity := bl.stack.multiplicity + bl₂.stack.multiplicity } }
                    rest₃ _ (by simp [hbsome]) rfl rfl hSM hchainrest hbound₁ hcase₂).1
                · exact (rewrite_assemble _ _ _ P
                    { bl with stack := { bl.stack with
                      multiplicity := bl.stack.multiplicity + bl₂.stack.multiplicity } }
                    rest₃ _ (by simp [hbsome]) rfl rfl hSM hchainrest hbound₁ hcase₂).2
              · simp only [List.cons_append, List.headI_cons, List.length_cons] at hm hn hhead₂ ⊢
                rw [if_neg (by simp only [beq_iff_eq]; omega)]
                rw [eraseIdx_append_len_succ]
                unfold Belt.rewriteRange
                have hm₂ : stackEq bl.stack q.stack = true := hm
                have hSq : SCs (q.stack :: (Q.map BeltItem.stack ++ [bl₂.stack])) := by
                  simpa using hS₂
                have hq₁ := List.chain'_cons'.mp hSq
                have hS : SCs (((P ++ { bl with stack := { bl.stack with
                    multiplicity := bl.stack.multiplicity + q.stack.multiplicity } } :: Q)
                    ++ [bl₂]).map BeltItem.stack) := by
                  have hmapeq : (((P ++ { bl with stack := { bl.stack with
                      multiplicity := bl.stack.multiplicity + q.stack.multiplicity } } :: Q)
                      ++ [bl₂]).map BeltItem.stack)
                      = P.map BeltItem.stack ++ ({ bl.stack with
                        multiplicity := bl.stack.multiplicity + q.stack.multiplicity } ::
                        (Q.map BeltItem.stack ++ [bl₂.stack])) := by
                    simp
                  rw [hmapeq]
                  refine SCs_append _ _ _ ?_ hq₁.2 ?_
                  · exact SCs_last_congr _ bl.stack _ (stackEq_mult bl.stack _) hSP
                  · intro τ hτ
                    rw [stackEq_shift_left { bl.stack with
                        multiplicity := bl.stack.multiplicity + q.stack.multiplicity }
                        bl.stack τ (stackEq_mult bl.stack _),
                      stackEq_shift_left bl.stack q.stack τ hm₂]
                    exact hq₁.1 τ hτ
                refine ih _ _ _ ?_ ?_
                · exact (rewrite_assemble _ _ _
                    (P ++ { bl with stack := { bl.stack with
                      multiplicity := bl.stack.multiplicity + q.stack.multiplicity } } :: Q)
                    bl₂ rest₃ _ (by simp [hbsome])
                    (by simp only [List.length_append, List.length_cons]; try omega)
                    (by simp only [List.length_append, List.length_cons]; try omega)
                    hS hchainrest hbound₂ hcase₂).1
                · exact (rewrite_assemble _ _ _
                    (P ++ { bl with stack := { bl.stack with
                      multiplicity := bl.stack.multiplicity + q.stack.multiplicity } } :: Q)
                    bl₂ rest₃ _ (by simp [hbsome])
                    (by simp only [List.length_append, List.length_cons]; try omega)
                    (by simp only [List.length_append, List.length_cons]; try omega)
                    hS hchainrest hbound₂ hcase₂).2
            · rw [if_neg hm]
              unfold Belt.rewriteRange
              have hmf : stackEq bl.stack ((P₂ ++ bl₂ :: rest₃).headI).stack = false := by
                cases hq : stackEq bl.stack ((P₂ ++ bl₂ :: rest₃).headI).stack
                · rfl
                · exact absurd hq hm
              have hS : SCs (((P ++ bl :: P₂) ++ [bl₂]).map BeltItem.stack) := by
                have hmapeq : (((P ++ bl :: P₂) ++ [bl₂]).map BeltItem.stack)
                    = P.map BeltItem.stack ++
                      (bl.stack :: ((P₂ ++ [bl₂]).map BeltItem.stack)) := by simp
                rw [hmapeq]
                refine SCs_append _ _ _ hSP hS₂ ?_
                intro τ hτ
                rcases P₂ with _ | ⟨q, Q⟩
                · simp only [List.nil_append, List.map_cons, List.map_nil, List.head?_cons,
                    Option.mem_def, Option.some_inj] at hτ
                  subst hτ
                  simpa using hmf
                · simp only [List.cons_append, List.map_cons, List.head?_cons,
                    Option.mem_def, Option.some_inj] at hτ
                  subst hτ
                  simpa using hmf
              refine ih _ _ _ ?_ ?_
              · exact (rewrite_assemble _ _ _ (P ++ bl :: P₂) bl₂ rest₃ _ (by simp [hbsome])
                  (by simp only [List.length_append, List.length_cons]; try omega)
                  (by simp only [List.length_append, List.length_cons]; try omega)
                  hS hchainrest hbound₂ hcase₂).1
              · exact (rewrite_assemble _ _ _ (P ++ bl :: P₂) bl₂ rest₃ _ (by simp [hbsome])
                  (by simp only [List.length_append, List.length_cons]; try omega)
                  (by simp only [List.length_append, List.length_cons]; try omega)
                  hS hchainrest hbound₂ hcase₂).2

/-- advance_without_connections leaves the attached connections untouched. -/
theorem advance_wc_fields (b : Belt) (d : Nat) :
    (b.advance_without_connections d).input_connection = b.input_connection ∧
    (b.advance_without_connections d).output_connection = b.output_connection := by
  unfold Belt.advance_without_connections
  split
  · exact ⟨rfl, rfl⟩
  · split
    · exact ⟨rfl, rfl⟩
    · exact ⟨rfl, rfl⟩

/-- advance_without_connections preserves the group structure and the fusion
law of the belt entries. -/
theorem advance_wc_preserves (b : Belt) (d : Nat) (hw : WFB b.items) (hn : NFP b.items) :
    WFB (b.advance_without_connections d).items ∧
    NFP (b.advance_without_connections d).items := by
  unfold Belt.advance_without_connections
  split
  · exact ⟨hw, hn⟩
  · split
    · exact ⟨hw, hn⟩
    · dsimp only
      exact advanceLoop_preserves (b.items.length + 1) b.items _ _ hw hn

/-- Popping the head entry of a multi-entry group promotes the next entry. -/
theorem pop_step_cons (front next : BeltItem) (tl : List BeltItem)
    (hw : WFB (front :: next :: tl)) (hn : NFP (front :: next :: tl))
    (hg : front.group_size > 1) :
    WFB ({ next with is_group_head := true, group_size := front.group_size - 1 } :: tl) ∧
    NFP ({ next with is_group_head := true, group_size := front.group_size - 1 } :: tl) := by
  have h := WFB_NFP_pop front (next :: tl) hw hn
  rw [if_pos hg] at h
  exact h

/-- Popping a single-entry group leaves the remaining entries as they are. -/
theorem pop_step_keep (front : BeltItem) (rest : List BeltItem)
    (hw : WFB (front :: rest)) (hn : NFP (front :: rest))
    (hg : ¬ front.group_size > 1) :
    WFB rest ∧ NFP rest := by
  have h := WFB_NFP_pop front rest hw hn
  rw [if_neg hg] at h
  exact h

set_option maxHeartbeats 2000000 in
/-- The output drain loop preserves the group structure and the fusion law
of the entries, and never touches the input connection. -/
theorem drainLoop_preserves : ∀ (fuel : Nat) (b : Belt) (dist : Nat)
    (conn : BeltConnection) (consumed : Nat), WFB b.items → NFP b.items →
    WFB (Belt.drainLoop fuel b dist conn consumed).1.items ∧
    NFP (Belt.drainLoop fuel b dist conn consumed).1.items ∧
    (Belt.drainLoop fuel b dist conn consumed).1.input_connection = b.input_connection := by
  intro fuel
  induction fuel with
  | zero =>
    intro b dist conn consumed hw hn
    exact ⟨hw, hn, rfl⟩
  | succ k ih =>
    intro b dist conn consumed hw hn
    obtain ⟨len, spd, items, esf, esb, ic, oc⟩ := b
    show WFB (Belt.drainLoop (k + 1) ⟨len, spd, items, esf, esb, ic, oc⟩ dist conn consumed).1.items ∧
      NFP (Belt.drainLoop (k + 1) ⟨len, spd, items, esf, esb, ic, oc⟩ dist conn consumed).1.items ∧
      (Belt.drainLoop (k + 1) ⟨len, spd, items, esf, esb, ic, oc⟩ dist conn consumed).1.input_connection = ic
    unfold Belt.drainLoop
    unfold Belt.pop_front_entry
    dsimp only
    by_cases hgap : (decide (esf > 0) && decide (dist > 0)) = true
    · rw [if_pos hgap]
      by_cases hlt : dist < esf
      · rw [if_pos hlt]
        exact ⟨hw, hn, rfl⟩
      · rw [if_neg hlt]
        exact ih _ _ _ _ hw hn
    · rw [if_neg hgap]
      rcases items with _ | ⟨front, rest⟩
      · exact ⟨hw, hn, rfl⟩
      · dsimp only
        repeat' split
        all_goals first
          | exact ⟨hw, hn, rfl⟩
          | exact ⟨WFB_head_replace front _ rest rfl rfl hw,
              NFP_head_replace front _ rest rfl rfl rfl hn, rfl⟩
          | exact ih _ _ _ _ (pop_step_cons front _ _ hw hn (by assumption)).1
              (pop_step_cons front _ _ hw hn (by assumption)).2
          | exact ih _ _ _ _ (pop_step_keep front rest hw hn (by assumption)).1
              (pop_step_keep front rest hw hn (by assumption)).2
          | exact ih _ _ _ _ WFB.nil List.chain'_nil

/-- With no input connection attached, apply_input_connection leaves the
entries unchanged. -/
theorem apply_input_none (b : Belt) (s : Nat) (h : b.input_connection = none) :
    (b.apply_input_connection s).items = b.items := by
  unfold Belt.apply_input_connection
  rw [h]

/-- C4, amended: for a belt with well-formed group structure satisfying the
fusion law and with no input connection attached, Belt::run preserves the
fusion law — no Stack-equal adjacent pair at zero gap exists afterwards.
(The unamended claim fails only through the input-connection fill phase,
which glues an equal entry at zero gap without fusing.) -/
theorem c4_fusion_law_without_input_connection (b : Belt) (ticks : Nat)
    (hw : wfb b.items = true) (hn : nfpB b.items = true)
    (hin : b.input_connection = none) :
    nfpB ((b.run ticks).items) = true := by
  have hW : WFB b.items := wfb_to_WFB b.items.length b.items le_rfl hw
  have hN : NFP b.items := (nfpB_iff b.items).mp hn
  rw [nfpB_iff]
  obtain ⟨len, spd, items, esf, esb, ic, oc⟩ := b
  dsimp only at hin
  subst hin
  unfold Belt.run
  dsimp only
  rcases oc with _ | conn
  · dsimp only
    split
    · rw [apply_input_none]
      · dsimp only
        exact (advance_wc_preserves _ _ hW hN).2
      · rw [(advance_wc_fields _ _).1]
    · rw [apply_input_none]
      · dsimp only
        exact hN
      · rfl
  · dsimp only
    rcases hdr : Belt.drain_to_output ⟨len, spd, items, esf, esb, none, none⟩ (ticks * spd) conn
      with ⟨b₄, consumed, blocked, conn₄⟩
    have hkey : WFB (Belt.drain_to_output ⟨len, spd, items, esf, esb, none, none⟩
          (ticks * spd) conn).1.items ∧
        NFP (Belt.drain_to_output ⟨len, spd, items, esf, esb, none, none⟩
          (ticks * spd) conn).1.items ∧
        (Belt.drain_to_output ⟨len, spd, items, esf, esb, none, none⟩
          (ticks * spd) conn).1.input_connection = none :=
      drainLoop_preserves _ _ _ _ _ hW hN
    rw [hdr] at hkey
    obtain ⟨hw₄, hn₄, hi₄⟩ := hkey
    dsimp only at hw₄ hn₄ hi₄ ⊢
    split
    · dsimp only
      rw [if_neg (by omega : ¬ (0 : Nat) > 0)]
      rw [apply_input_none]
      · dsimp only
        exact (advance_wc_preserves _ _ hw₄ hn₄).2
      · rw [(advance_wc_fields _ _).1]
        exact hi₄
    · dsimp only
      split
      · rw [apply_input_none]
        · dsimp only
          exact (advance_wc_preserves _ _ hw₄ hn₄).2
        · rw [(advance_wc_fields _ _).1]
          exact hi₄
      · rw [apply_input_none]
        · dsimp only
          exact hn₄
        · exact hi₄

/-- Witness for the amended C4 at the concrete two-block belt: running one
tick (which merges the two equal blocks) keeps the fusion law. -/
theorem c4_fusion_law_witness : nfpB ((exC4witnessBelt.run 1).items) = true :=
  c4_fusion_law_without_input_connection exC4witnessBelt 1 (by decide) (by decide) rfl

end FactoryLib
